import Mathlib

/-!
Verification of `skeeeon/message-transformer` (Go).

Shallow embedding of the transformation pipeline
(`internal/transformer/transformer.go`), rule validation
(`internal/config`), and the MQTT delivery client (`internal/mqtt/client.go`).

Go's `interface\x7b\x7d` values decoded from JSON are modelled by `GoValue`.
The standard library's `encoding/json` decoding/encoding is modelled from its
documented grammar (RFC 8259 plus the Go-specific behaviours the code relies
on: `decoder.UseNumber()` producing `json.Number` literals, `json.Unmarshal`
decoding numbers as `float64`, JSON `null` being a decode no-op for maps,
`json.Marshal` sorting object keys and HTML-escaping strings).

Go `float64`/`float32` values are carried as an uninterpreted tag (the source
text that produced them): no claim settled here depends on float arithmetic
or float formatting, only on a value being float-typed (Go type switches).
-/

namespace MessageTransformer

/-! ## Character helpers (ASCII classes used by the JSON scanner) -/

/-- JSON whitespace (space, tab, newline, carriage return). -/
def isWsB (c : Char) : Bool :=
  decide (c.toNat = 32) || decide (c.toNat = 9) || decide (c.toNat = 10) || decide (c.toNat = 13)

def skipWs (cs : List Char) : List Char := cs.dropWhile isWsB

/-- ASCII decimal digit. -/
def isDigitB (c : Char) : Bool := decide (48 ≤ c.toNat) && decide (c.toNat ≤ 57)

/-- Value of a hexadecimal digit character. -/
def hexVal (c : Char) : Option Nat :=
  if 48 ≤ c.toNat ∧ c.toNat ≤ 57 then some (c.toNat - 48)
  else if 97 ≤ c.toNat ∧ c.toNat ≤ 102 then some (c.toNat - 87)
  else if 65 ≤ c.toNat ∧ c.toNat ≤ 70 then some (c.toNat - 55)
  else none

/-- Lower-case hex digit for a value below 16 (Go's encoder uses lower case). -/
def hexDigit (n : Nat) : Char :=
  if n < 10 then Char.ofNat (48 + n) else Char.ofNat (87 + n)

/-- Go's `lower`: ASCII lower-casing by OR-ing bit 0x20 (used by `strconv`). -/
def lowerC (c : Char) : Char :=
  if 65 ≤ c.toNat ∧ c.toNat ≤ 90 then Char.ofNat (c.toNat + 32) else c

/-! ## Go dynamic values

`GoValue` covers the dynamic (`interface\x7b\x7d`) types the template
functions' type switches distinguish: JSON-decoded values (`null`, `bool`,
`string`, `json.Number`, `map[string]interface\x7b\x7d`,
`[]interface\x7b\x7d`), plus the numeric Go types the switches also name
(`float64`, `float32`, `int`, `int64`, `int32`).

Objects are modelled canonically as association lists sorted strictly by key
(Go maps are unordered; the sorted list is the canonical representative, and
`json.Marshal` serialises map keys in sorted order). -/

mutual

inductive GoValue where
  | null
  | boolean (b : Bool)
  | str (s : String)
  | number (lit : String)
  | float64 (tag : String)
  | float32 (tag : String)
  | int (n : Int)
  | int64 (n : Int)
  | int32 (n : Int)
  | obj (fields : GoFields)
  | arr (elems : GoElems)

/-- Fields of a decoded object (`map[string]interface\x7b\x7d`), canonically
kept strictly key-sorted. -/
inductive GoFields where
  | nil
  | cons (k : String) (v : GoValue) (tl : GoFields)

/-- Elements of a decoded array (`[]interface\x7b\x7d`), in order. -/
inductive GoElems where
  | nil
  | cons (v : GoValue) (tl : GoElems)

end

/-- Computable lexicographic string comparison (Go compares strings
byte-wise; UTF-8 byte order coincides with code-point order). -/
def charListLt : List Char → List Char → Bool
  | [], [] => false
  | [], _ :: _ => true
  | _ :: _, [] => false
  | a :: as, b :: bs =>
    if a.toNat < b.toNat then true
    else if b.toNat < a.toNat then false
    else charListLt as bs

def strLt (a b : String) : Bool := charListLt a.data b.data

def strLe (a b : String) : Bool := !(strLt b a)

/-- Spine induction for `GoFields` (no hypotheses about the nested values;
the `induction` tactic cannot use the mutual recursor directly). -/
def GoFields.spineInd (P : GoFields → Prop) (h1 : P .nil)
    (h2 : ∀ k v tl, P tl → P (.cons k v tl)) : ∀ fs, P fs
  | .nil => h1
  | .cons k v tl => h2 k v tl (GoFields.spineInd P h1 h2 tl)

/-- Spine induction for `GoElems`. -/
def GoElems.spineInd (P : GoElems → Prop) (h1 : P .nil)
    (h2 : ∀ v tl, P tl → P (.cons v tl)) : ∀ vs, P vs
  | .nil => h1
  | .cons v tl => h2 v tl (GoElems.spineInd P h1 h2 tl)

/-! ## Go map model

A Go `map[string]interface\x7b\x7d` is modelled as a strictly-key-sorted
field list; `mapInsert` is `m[k] = v` (replace or insert). -/

def mapInsert (acc : GoFields) (k : String) (v : GoValue) : GoFields :=
  match acc with
  | .nil => .cons k v .nil
  | .cons k1 v1 rest =>
    if strLt k k1 then .cons k v (.cons k1 v1 rest)
    else if k = k1 then .cons k v rest
    else .cons k1 v1 (mapInsert rest k v)

/-- Map read `m[k]`: an absent key yields the zero value (nil interface). -/
def lookupKey (data : GoFields) (k : String) : GoValue :=
  match data with
  | .nil => .null
  | .cons k1 v1 rest => if k1 = k then v1 else lookupKey rest k

def findField (data : GoFields) (k : String) : Option GoValue :=
  match data with
  | .nil => none
  | .cons k1 v1 rest => if k1 = k then some v1 else findField rest k

def GoFields.length : GoFields → Nat
  | .nil => 0
  | .cons _ _ tl => 1 + tl.length

/-- Every key of the field list is strictly greater than `k`. -/
def keysAboveB (k : String) : GoFields → Bool
  | .nil => true
  | .cons k1 _ tl => strLt k k1 && keysAboveB k tl

/-- Keys strictly increasing (canonical Go-map representative). -/
def keysSortedB : GoFields → Bool
  | .nil => true
  | .cons k1 _ tl => keysAboveB k1 tl && keysSortedB tl

/-- Every key of the field list is strictly below `k`. -/
def keysBelowB (k : String) : GoFields → Bool
  | .nil => true
  | .cons k1 _ tl => strLt k1 k && keysBelowB k tl

/-- Every key of `acc` is strictly below every key of `fs`. -/
def keysBelowAllB (acc : GoFields) : GoFields → Bool
  | .nil => true
  | .cons k _ tl => keysBelowB k acc && keysBelowAllB acc tl

def fieldsAppend : GoFields → GoFields → GoFields
  | .nil, gs => gs
  | .cons k v tl, gs => .cons k v (fieldsAppend tl gs)

def elemsAppend : GoElems → GoElems → GoElems
  | .nil, b => b
  | .cons v tl, b => .cons v (elemsAppend tl b)

mutual

/-- The decoder-produced, number-free values: built from `null`, booleans,
strings, key-sorted objects and arrays.  (`decoder.UseNumber()` output never
contains `float64`/`float32`/`int` values, and this class additionally
excludes `json.Number` literals.) -/
def pureValB : GoValue → Bool
  | .null => true
  | .boolean _ => true
  | .str _ => true
  | .obj fs => keysSortedB fs && pureFieldsB fs
  | .arr vs => pureElemsB vs
  | _ => false

def pureFieldsB : GoFields → Bool
  | .nil => true
  | .cons _ v tl => pureValB v && pureFieldsB tl

def pureElemsB : GoElems → Bool
  | .nil => true
  | .cons v tl => pureValB v && pureElemsB tl

end

/-! ## JSON scanner: strings -/

/-- Decode a JSON string body (after the opening quote) up to and including
the closing quote, modelling `encoding/json`'s unquoting: standard escapes,
`\uXXXX` with UTF-16 surrogate-pair combination (an unpaired surrogate
yields U+FFFD and decoding continues at the next escape, as in Go's
`unquote`), raw control characters rejected.  The fuel only bounds the
number of decoding steps; each step consumes at least one character, so
`input length + 1` always suffices (callers pass that). -/
def parseStrBody : Nat → List Char → Option (List Char × List Char)
  | 0, _ => none
  | _ + 1, [] => none
  | f + 1, c :: rest =>
    if c = '\"' then some ([], rest)
    else if c = '\\' then
      match rest with
      | [] => none
      | e :: rest2 =>
        if e = 'u' then
          match rest2 with
          | h1 :: h2 :: h3 :: h4 :: rest3 =>
            match hexVal h1, hexVal h2, hexVal h3, hexVal h4 with
            | some a, some b, some c2, some d =>
              let n := ((a * 16 + b) * 16 + c2) * 16 + d
              if 0xD800 ≤ n ∧ n ≤ 0xDFFF then
                match rest3 with
                | '\\' :: 'u' :: g1 :: g2 :: g3 :: g4 :: rest4 =>
                  match hexVal g1, hexVal g2, hexVal g3, hexVal g4 with
                  | some a2, some b2, some c3, some d2 =>
                    let m := ((a2 * 16 + b2) * 16 + c3) * 16 + d2
                    if n ≤ 0xDBFF ∧ 0xDC00 ≤ m ∧ m ≤ 0xDFFF then
                      match parseStrBody f rest4 with
                      | some (out, r) =>
                        some (Char.ofNat (0x10000 + (n - 0xD800) * 0x400 + (m - 0xDC00)) :: out, r)
                      | none => none
                    else
                      match parseStrBody f rest3 with
                      | some (out, r) => some (Char.ofNat 0xFFFD :: out, r)
                      | none => none
                  | _, _, _, _ =>
                    match parseStrBody f rest3 with
                    | some (out, r) => some (Char.ofNat 0xFFFD :: out, r)
                    | none => none
                | _ =>
                  match parseStrBody f rest3 with
                  | some (out, r) => some (Char.ofNat 0xFFFD :: out, r)
                  | none => none
              else
                match parseStrBody f rest3 with
                | some (out, r) => some (Char.ofNat n :: out, r)
                | none => none
            | _, _, _, _ => none
          | _ => none
        else
          let esc : Option Char :=
            if e = '\"' then some '\"'
            else if e = '\\' then some '\\'
            else if e = '/' then some '/'
            else if e = 'b' then some (Char.ofNat 8)
            else if e = 'f' then some (Char.ofNat 12)
            else if e = 'n' then some (Char.ofNat 10)
            else if e = 'r' then some (Char.ofNat 13)
            else if e = 't' then some (Char.ofNat 9)
            else none
          match esc with
          | some ec =>
            match parseStrBody f rest2 with
            | some (out, r) => some (ec :: out, r)
            | none => none
          | none => none
    else if c.toNat < 32 then none
    else
      match parseStrBody f rest with
      | some (out, r) => some (c :: out, r)
      | none => none

/-! ## JSON scanner: numbers -/

/-- Scan a JSON number literal (RFC 8259 grammar, as enforced by the Go
scanner): `-? (0 | [1-9][0-9]*) (\.[0-9]+)? ([eE][+-]?[0-9]+)?`.
Returns the literal's characters and the unconsumed rest. -/
def parseNumLit (cs : List Char) : Option (List Char × List Char) :=
  let (sign, cs1) :=
    match cs with
    | c :: r => if c = '-' then ([c], r) else (([] : List Char), cs)
    | [] => ([], ([] : List Char))
  let (ds, r2) := cs1.span isDigitB
  if ds.isEmpty then none
  else if ds.head? = some '0' ∧ ds.length > 1 then none
  else
    let fracRes : Option (List Char × List Char) :=
      match r2 with
      | c :: r =>
        if c = '.' then
          let (fs, rr) := r.span isDigitB
          if fs.isEmpty then none else some ('.' :: fs, rr)
        else some ([], c :: r)
      | [] => some ([], [])
    match fracRes with
    | none => none
    | some (frac, r3) =>
      let expRes : Option (List Char × List Char) :=
        match r3 with
        | c :: r =>
          if c = 'e' ∨ c = 'E' then
            let (esign, r4) :=
              match r with
              | c2 :: rr => if c2 = '+' ∨ c2 = '-' then ([c2], rr) else (([] : List Char), r)
              | [] => ([], ([] : List Char))
            let (es, r5) := r4.span isDigitB
            if es.isEmpty then none else some (c :: esign ++ es, r5)
          else some ([], r3)
        | [] => some ([], r3)
      match expRes with
      | none => none
      | some (ex, r6) => some (sign ++ ds ++ frac ++ ex, r6)

/-- Append one decoded array element (Go array decoding appends in
order). -/
def GoElems.snoc : GoElems → GoValue → GoElems
  | .nil, v => .cons v .nil
  | .cons w tl, v => .cons w (tl.snoc v)

/-! ## JSON parser

Fuel-indexed recursive-descent parser for one JSON value, modelling the
`encoding/json` scanner/decoder into `interface\x7b\x7d`.  `useNum` selects
`decoder.UseNumber()` behaviour (numbers kept as `json.Number` literals)
versus plain `json.Unmarshal` (numbers become `float64`).  The fuel only
bounds nesting/sequencing depth; `nat` fuel of `input length + 1` always
suffices (proved below for serialised values). -/

/-- Scan one JSON string body at its natural fuel (input length + 1 always
suffices, each step consuming at least one character). -/
def parseStr (cs : List Char) : Option (List Char × List Char) :=
  parseStrBody (cs.length + 1) cs

mutual

def parseVal (useNum : Bool) : Nat → List Char → Option (GoValue × List Char)
  | 0, _ => none
  | f + 1, cs =>
    match skipWs cs with
    | [] => none
    | c :: rest =>
      if c = 't' then
        match rest with
        | 'r' :: 'u' :: 'e' :: r2 => some (.boolean true, r2)
        | _ => none
      else if c = 'f' then
        match rest with
        | 'a' :: 'l' :: 's' :: 'e' :: r2 => some (.boolean false, r2)
        | _ => none
      else if c = 'n' then
        match rest with
        | 'u' :: 'l' :: 'l' :: r2 => some (.null, r2)
        | _ => none
      else if c = '\"' then
        match parseStr rest with
        | some (out, r) => some (.str (String.mk out), r)
        | none => none
      else if c = '\x7b' then
        match skipWs rest with
        | [] => parseMembers useNum f [] .nil
        | c2 :: r2 =>
          if c2 = '\x7d' then some (.obj .nil, r2)
          else parseMembers useNum f (c2 :: r2) .nil
      else if c = '[' then
        match skipWs rest with
        | [] => parseElems useNum f [] .nil
        | c2 :: r2 =>
          if c2 = ']' then some (.arr .nil, r2)
          else parseElems useNum f (c2 :: r2) .nil
      else
        match parseNumLit (c :: rest) with
        | some (tok, r) =>
          if useNum then some (.number (String.mk tok), r)
          else some (.float64 (String.mk tok), r)
        | none => none

def parseMembers (useNum : Bool) :
    Nat → List Char → GoFields → Option (GoValue × List Char)
  | 0, _, _ => none
  | f + 1, cs, acc =>
    match skipWs cs with
    | '\"' :: rest =>
      match parseStr rest with
      | some (kcs, r1) =>
        match skipWs r1 with
        | ':' :: r2 =>
          match parseVal useNum f r2 with
          | some (v, r3) =>
            let acc2 := mapInsert acc (String.mk kcs) v
            match skipWs r3 with
            | ',' :: r4 => parseMembers useNum f r4 acc2
            | '\x7d' :: r4 => some (.obj acc2, r4)
            | _ => none
          | none => none
        | _ => none
      | none => none
    | _ => none

def parseElems (useNum : Bool) :
    Nat → List Char → GoElems → Option (GoValue × List Char)
  | 0, _, _ => none
  | f + 1, cs, acc =>
    match parseVal useNum f cs with
    | some (v, r1) =>
      match skipWs r1 with
      | ',' :: r2 => parseElems useNum f r2 (acc.snoc v)
      | ']' :: r2 => some (.arr (acc.snoc v), r2)
      | _ => none
    | none => none

end

/-- Parse the first JSON value of a string (ample fuel). -/
def parseTop (useNum : Bool) (s : String) : Option (GoValue × List Char) :=
  parseVal useNum (s.data.length + 1) s.data

/-- Model of `json.Valid`: the bytes are one well-formed JSON value with
only whitespace around it. -/
def jsonValid (s : String) : Bool :=
  match parseTop true s with
  | some (_, rest) => (skipWs rest).isEmpty
  | none => false

/-- Model of `Transform`'s input decoding
(`json.NewDecoder(...).UseNumber(); decoder.Decode(&data)` into
`map[string]interface\x7b\x7d`): decodes the FIRST value of the stream
(trailing bytes are not an error for `Decode`); a top-level JSON `null` is a
decode no-op leaving the map nil (read as empty); any other non-object
top-level value is an `UnmarshalTypeError`. -/
def decodeInputDoc (s : String) : Except Unit GoFields :=
  match parseTop true s with
  | none => .error ()
  | some (v, _) =>
    match v with
    | .obj fs => .ok fs
    | .null => .ok .nil
    | _ => .error ()

/-! ## JSON serialisation (model of `json.Marshal`)

`json.Marshal` emits compact JSON, sorts map keys, and escapes `"`, `\`,
control characters (with `\n`, `\r`, `\t` shortcuts), the HTML characters
`<`, `>`, `&`, and U+2028/U+2029. -/

def escapeChar (c : Char) : List Char :=
  if c = '\"' then ['\\', '\"']
  else if c = '\\' then ['\\', '\\']
  else if c.toNat = 10 then ['\\', 'n']
  else if c.toNat = 13 then ['\\', 'r']
  else if c.toNat = 9 then ['\\', 't']
  else if c.toNat < 32 then ['\\', 'u', '0', '0', hexDigit (c.toNat / 16), hexDigit (c.toNat % 16)]
  else if c = '<' then ['\\', 'u', '0', '0', '3', 'c']
  else if c = '>' then ['\\', 'u', '0', '0', '3', 'e']
  else if c = '&' then ['\\', 'u', '0', '0', '2', '6']
  else if c.toNat = 0x2028 then ['\\', 'u', '2', '0', '2', '8']
  else if c.toNat = 0x2029 then ['\\', 'u', '2', '0', '2', '9']
  else [c]

def escBody (l : List Char) : List Char := l.foldr (fun c acc => escapeChar c ++ acc) []

def serStr (s : String) : List Char := '\"' :: escBody s.data ++ ['\"']

/-- Insert a field into a key-sorted field list (insertion sort step). -/
def fieldsInsert (k : String) (v : GoValue) : GoFields → GoFields
  | .nil => .cons k v .nil
  | .cons k1 v1 tl =>
    if strLe k k1 then .cons k v (.cons k1 v1 tl)
    else .cons k1 v1 (fieldsInsert k v tl)

mutual

/-- Recursively sort all object fields by key (`json.Marshal` serialises Go
maps in sorted key order; on the canonical sorted representation this is the
identity). -/
def canonOrder : GoValue → GoValue
  | .obj fs => .obj (canonFields fs)
  | .arr vs => .arr (canonElems vs)
  | v => v

def canonFields : GoFields → GoFields
  | .nil => .nil
  | .cons k v tl => fieldsInsert k (canonOrder v) (canonFields tl)

def canonElems : GoElems → GoElems
  | .nil => .nil
  | .cons v tl => .cons (canonOrder v) (canonElems tl)

end

mutual

/-- Serialise one (already key-sorted) value, compactly, per `json.Marshal`.
`float64`/`float32` payloads are emitted as their opaque tag (no claim
here depends on Go's float formatting). -/
def serValue : GoValue → List Char
  | .null => 'n' :: 'u' :: 'l' :: 'l' :: []
  | .boolean true => 't' :: 'r' :: 'u' :: 'e' :: []
  | .boolean false => 'f' :: 'a' :: 'l' :: 's' :: 'e' :: []
  | .str s => serStr s
  | .number lit => lit.data
  | .float64 t => t.data
  | .float32 t => t.data
  | .int n => (toString n).data
  | .int64 n => (toString n).data
  | .int32 n => (toString n).data
  | .obj fs => '\x7b' :: (serMembers fs ++ ['\x7d'])
  | .arr vs => '[' :: (serElems vs ++ [']'])

def serMembers : GoFields → List Char
  | .nil => []
  | .cons k v .nil => serStr k ++ ':' :: serValue v
  | .cons k v (.cons k2 v2 tl) =>
    serStr k ++ ':' :: serValue v ++ ',' :: serMembers (.cons k2 v2 tl)

def serElems : GoElems → List Char
  | .nil => []
  | .cons v .nil => serValue v
  | .cons v (.cons w tl) => serValue v ++ ',' :: serElems (.cons w tl)

end

/-- `json.Marshal` of a `json.Number` validates the literal against the JSON
number grammar (an invalid literal makes the whole marshal fail). -/
def jsonNumberOkB (s : String) : Bool :=
  match parseNumLit s.data with
  | some (_, []) => true
  | _ => false

mutual

/-- Whether `json.Marshal` succeeds on the value (the only failure our value
domain can produce is an invalid `json.Number` literal; float
NaN/Inf failures are outside the opaque float model). -/
def marshalOkB : GoValue → Bool
  | .number lit => jsonNumberOkB lit
  | .obj fs => marshalFieldsOkB fs
  | .arr vs => marshalElemsOkB vs
  | _ => true

def marshalFieldsOkB : GoFields → Bool
  | .nil => true
  | .cons _ v tl => marshalOkB v && marshalFieldsOkB tl

def marshalElemsOkB : GoElems → Bool
  | .nil => true
  | .cons v tl => marshalOkB v && marshalElemsOkB tl

end

/-! ## The template function vocabulary
(`templateFuncs` in `internal/transformer/transformer.go`) -/

/-- `toJSON`: `json.Marshal`, yielding the literal `null` on marshal
failure. -/
def toJSONFn (v : GoValue) : String :=
  if marshalOkB v then String.mk (serValue (canonOrder v)) else "null"

/-- `fromJSON`: `json.Unmarshal` into `interface\x7b\x7d` (numbers become
`float64`), yielding nil (modelled `.null`) on parse failure.  Unlike the
streaming `Decode`, `Unmarshal` rejects trailing non-whitespace. -/
def fromJSONFn (s : String) : GoValue :=
  match parseTop false s with
  | some (v, rest) => if (skipWs rest).isEmpty then v else .null
  | none => .null

/-! ### Model of `strconv.ParseFloat(s, 64)` acceptance (`err == nil`):
`readFloat`'s syntax together with the range check — `ErrRange` is
returned exactly when the value overflows to ±Inf; underflow to zero is
not an error. -/

def stripSign : List Char → List Char
  | c :: r => if c = '+' ∨ c = '-' then r else c :: r
  | [] => []

/-- `strconv`'s `special`: optionally signed case-insensitive `inf` /
`infinity`, or unsigned `nan`, as the whole string. -/
def goParseFloatSpecialOk (cs : List Char) : Bool :=
  let hasSign : Bool :=
    match cs with
    | c :: _ => c = '+' ∨ c = '-'
    | [] => false
  let t := (stripSign cs).map lowerC
  decide (t = ['i', 'n', 'f']) || decide (t = ['i', 'n', 'f', 'i', 'n', 'i', 't', 'y']) ||
    (!hasSign && decide (t = ['n', 'a', 'n']))

def isHexDigitB (c : Char) : Bool :=
  isDigitB c || (decide (97 ≤ (lowerC c).toNat) && decide ((lowerC c).toNat ≤ 102))

/-- The mantissa loop of `strconv`'s `readFloat`, kept at full precision
(Go truncates the fast-path mantissa to 19 digits, but success is decided
by the exactly-rounded slow path, so every digit counts): consumes digits
(hex digits in hex mode), underscores and at most one dot, accumulating
the mantissa `m`, the significant-digit count `nd` (leading zeros shift
the decimal point instead of counting) and the decimal-point position
`dp`.  Returns (sawdot, sawdigits, m, nd, dp, rest). -/
def readFloatMant (hex : Bool) :
    List Char → Bool → Bool → Nat → Nat → Int →
      (Bool × Bool × Nat × Nat × Int × List Char)
  | [], sawdot, sawdig, m, nd, dp => (sawdot, sawdig, m, nd, dp, [])
  | c :: r, sawdot, sawdig, m, nd, dp =>
    if c = '_' then readFloatMant hex r sawdot sawdig m nd dp
    else if c = '.' then
      if sawdot then (sawdot, sawdig, m, nd, dp, c :: r)
      else readFloatMant hex r true sawdig m nd (nd : Int)
    else if isDigitB c then
      if c = '0' ∧ nd = 0 then readFloatMant hex r sawdot true m nd (dp - 1)
      else
        readFloatMant hex r sawdot true
          (m * (if hex then 16 else 10) + (c.toNat - 48)) (nd + 1) dp
    else if hex && isHexDigitB c then
      readFloatMant hex r sawdot true (m * 16 + ((lowerC c).toNat - 87)) (nd + 1) dp
    else (sawdot, sawdig, m, nd, dp, c :: r)

/-- The exponent loop of `readFloat`: decimal digits and underscores, with
Go's saturation (a digit stops accumulating once `e` has reached 10000 —
the decimal point only needs to move "by a lot"). -/
def readFloatExp : List Char → Nat → (Nat × List Char)
  | [], e => (e, [])
  | c :: r, e =>
    if c = '_' then readFloatExp r e
    else if isDigitB c then
      readFloatExp r (if e < 10000 then e * 10 + (c.toNat - 48) else e)
    else (e, c :: r)

/-- `strconv`'s `readFloat` over the full string: `some (base, m, E)` on
syntactic success, where the represented magnitude is `m * base ^ E`
(base 10; base 2 for a hex mantissa, whose `dp`/`nd` are scaled to bits),
`none` on syntax error.  Optional sign; decimal mantissa with optional
`e` exponent, or `0x` hex mantissa with mandatory `p` exponent; nothing
may follow. -/
def goReadFloatVal (cs : List Char) : Option (Nat × Nat × Int) :=
  match cs with
  | [] => none
  | _ =>
    let s1 := stripSign cs
    let hex : Bool :=
      match s1 with
      | c0 :: cx :: _ => c0 = '0' ∧ lowerC cx = 'x'
      | _ => false
    let s2 :=
      match s1 with
      | c0 :: cx :: r => if c0 = '0' ∧ lowerC cx = 'x' then r else s1
      | _ => s1
    match readFloatMant hex s2 false false 0 0 0 with
    | (sawdot, sawdig, m, nd, dp0, rest) =>
      if !sawdig then none
      else
        let dp1 : Int := if sawdot then dp0 else (nd : Int)
        let dp2 : Int := if hex then 4 * dp1 else dp1
        let ndb : Int := if hex then 4 * (nd : Int) else (nd : Int)
        match rest with
        | [] => if hex then none else some (10, m, dp2 - ndb)
        | e :: r2 =>
          if (if hex then lowerC e = 'p' else lowerC e = 'e') then
            let esign : Int :=
              match r2 with
              | '-' :: _ => -1
              | _ => 1
            match stripSign r2 with
            | [] => none
            | c3 :: r3 =>
              if !isDigitB c3 then none
              else
                match readFloatExp (c3 :: r3) 0 with
                | (e2, restE) =>
                  if restE = [] then
                    some (if hex then 2 else 10, m, dp2 + esign * (e2 : Int) - ndb)
                  else none
          else none

/-- The smallest magnitude that rounds to `±Inf` under IEEE-754
round-to-nearest-even: 2^1024 − 2^970 (half an ULP above `MaxFloat64`;
everything strictly below rounds to a finite `float64`). -/
def float64OverflowBound : Nat := 2 ^ 970 * (2 ^ 54 - 1)

/-- Whether `m * base ^ e ≥ bound`, exactly, over integers. -/
def scaledGE (base m : Nat) (e : Int) (bound : Nat) : Bool :=
  if 0 ≤ e then decide (bound ≤ m * base ^ e.toNat)
  else decide (bound * base ^ (-e).toNat ≤ m)

/-- `strconv`'s `underscoreOK`: every underscore sits between digits (with
the base prefix counting as a digit).  The first argument is the last-seen
class marker. -/
def underscoreOKCore (hex : Bool) : Char → List Char → Bool
  | saw, [] => decide (saw ≠ '_')
  | saw, c :: r =>
    if isDigitB c || (hex && decide (97 ≤ (lowerC c).toNat) && decide ((lowerC c).toNat ≤ 102)) then
      underscoreOKCore hex '0' r
    else if c = '_' then decide (saw = '0') && underscoreOKCore hex '_' r
    else if saw = '_' then false
    else underscoreOKCore hex '!' r

def underscoreOK (cs : List Char) : Bool :=
  let s1 := stripSign cs
  match s1 with
  | c0 :: cx :: r =>
    if c0 = '0' ∧ (lowerC cx = 'b' ∨ lowerC cx = 'o' ∨ lowerC cx = 'x') then
      underscoreOKCore (lowerC cx = 'x') '0' r
    else underscoreOKCore false '^' s1
  | _ => underscoreOKCore false '^' s1

/-- Whether `strconv.ParseFloat(s, 64)` succeeds on `s` (`err == nil`):
a special `inf`/`nan`, or `readFloat` syntax with valid underscore
placement and a magnitude below the overflow bound (out-of-range values
such as `1e999` make `ParseFloat` return `ErrRange`, so `num` treats
them as unparseable). -/
def goParseFloat64Ok (s : String) : Bool :=
  goParseFloatSpecialOk s.data ||
    (match goReadFloatVal s.data with
     | some (base, m, e) =>
       (!(s.data.contains '_') || underscoreOK s.data) &&
         !(decide (m ≠ 0) && scaledGE base m e float64OverflowBound)
     | none => false)

/-- The `num` template function: `json.Number` literals echo verbatim;
float/int typed values are formatted (floats carried as their opaque tag —
never relied upon by a theorem); strings accepted by `strconv.ParseFloat`
pass through verbatim; every other type (including nil, bool, maps, slices
and non-numeric strings) yields `"0"`. -/
def tplNum : GoValue → String
  | .number lit => lit
  | .float64 t => t
  | .float32 t => t
  | .int n => toString n
  | .int64 n => toString n
  | .int32 n => toString n
  | .str s => if goParseFloat64Ok s then s else "0"
  | _ => "0"

/-- The `bool` template function: its type switch names `bool`, `string`,
`int, int64, float64` and `nil`; everything else (including `json.Number`,
`int32`, `float32`, maps, slices) falls to the default `"false"`. -/
def tplBool : GoValue → String
  | .boolean b => if b then "true" else "false"
  | .str s => if s = "true" ∨ s = "false" then s else "false"
  | .int _ => "true"
  | .int64 _ => "true"
  | .float64 _ => "true"
  | .null => "false"
  | _ => "false"

/-! ## Template model

`text/template` is modelled on the fragment the rules use: literal text and
actions `\x7b\x7b.path\x7d\x7d`, `\x7b\x7bfn .path\x7d\x7d` (fn unary) and
`\x7b\x7bfn\x7d\x7d` (fn nullary), over the function vocabulary.  Unknown
functions or malformed actions are parse errors (as in `text/template`,
where unknown function names fail at parse time). -/

inductive TplNode where
  | text (s : String)
  | field (path : List String)
  | numOf (path : List String)
  | boolOf (path : List String)
  | toJSONOf (path : List String)
  | fromJSONOf (path : List String)
  | nowNode
  | uuidNode

/-- `Validate`'s vocabulary (`part_002`): note it has no `uuid7`, unlike the
executor's `templateFuncs`. -/
def validateVocab : List String := ["toJSON", "fromJSON", "now", "num", "bool"]

/-- The executor's vocabulary (`templateFuncs` in `transformer.go`). -/
def execVocab : List String := ["toJSON", "fromJSON", "now", "num", "bool", "uuid7"]

def trimChars (l : List Char) : List Char :=
  ((l.dropWhile isWsB).reverse.dropWhile isWsB).reverse

def identCharB (c : Char) : Bool := c.isAlphanum || c = '_'

def goodPath (parts : List String) : Bool :=
  !parts.isEmpty && parts.all (fun p => !p.isEmpty && p.data.all identCharB)

/-- Split a field expression `a.b.c` into its path segments. -/
def splitDotAux : List Char → List Char → List String
  | [], acc => [String.mk acc.reverse]
  | '.' :: r, acc => String.mk acc.reverse :: splitDotAux r []
  | c :: r, acc => splitDotAux r (c :: acc)

def splitDot (cs : List Char) : List String := splitDotAux cs []

def parseAction (vocab : List String) (body : List Char) : Option TplNode :=
  let t := trimChars body
  match t with
  | '.' :: rest =>
    if rest.isEmpty then some (.field [])
    else
      let parts := splitDot rest
      if goodPath parts then some (.field parts) else none
  | _ =>
    let nameCs := t.takeWhile (fun c => !isWsB c)
    let restA := (t.dropWhile (fun c => !isWsB c)).dropWhile isWsB
    let nameS := String.mk nameCs
    if restA.isEmpty then
      if nameS = "now" ∧ nameS ∈ vocab then some .nowNode
      else if nameS = "uuid7" ∧ nameS ∈ vocab then some .uuidNode
      else none
    else
      match restA with
      | '.' :: fld =>
        let parts := splitDot fld
        if ¬ (goodPath parts ∧ nameS ∈ vocab) then none
        else if nameS = "num" then some (.numOf parts)
        else if nameS = "bool" then some (.boolOf parts)
        else if nameS = "toJSON" then some (.toJSONOf parts)
        else if nameS = "fromJSON" then some (.fromJSONOf parts)
        else none
      | _ => none

/-- Split the text before an action: characters up to `\x7d\x7d`. -/
def splitToClose : List Char → Option (List Char × List Char)
  | [] => none
  | '\x7d' :: '\x7d' :: rest => some ([], rest)
  | c :: rest =>
    match splitToClose rest with
    | some (a, b) => some (c :: a, b)
    | none => none

def compileGo (vocab : List String) : Nat → List Char → Option (List TplNode)
  | 0, _ => none
  | _, [] => some []
  | f + 1, '\x7b' :: '\x7b' :: rest =>
    match splitToClose rest with
    | some (body, rest2) =>
      match parseAction vocab body with
      | some node =>
        match compileGo vocab f rest2 with
        | some nodes => some (node :: nodes)
        | none => none
      | none => none
    | none => none
  | f + 1, c :: rest =>
    match compileGo vocab f rest with
    | some nodes => some (.text (String.mk [c]) :: nodes)
    | none => none

/-- Model of `template.New(id).Funcs(vocab).Parse(templateStr)`. -/
def compileTplWith (vocab : List String) (s : String) : Option (List TplNode) :=
  compileGo vocab (s.data.length + 1) s.data

/-! ## Template execution -/

/-- `now`/`uuid7` are the only non-deterministic template functions; an
oracle supplies their output. -/
structure TplOracle where
  nowStr : String
  uuidStr : String

mutual

/-- `fmt`-style `%v` printing used by `text/template` for action output:
nil prints `<no value>`, strings raw, `json.Number` raw (it is a string
type), maps as `map[k:v ...]`, slices space-separated.  (All `GoValue`
objects reachable from the decoder are already key-sorted, matching `fmt`'s
sorted map printing.) -/
def renderValue : GoValue → String
  | .null => "<no value>"
  | .boolean b => if b then "true" else "false"
  | .str s => s
  | .number lit => lit
  | .float64 t => t
  | .float32 t => t
  | .int n => toString n
  | .int64 n => toString n
  | .int32 n => toString n
  | .obj fs => "map[" ++ renderMembers fs ++ "]"
  | .arr vs => "[" ++ renderElems vs ++ "]"

def renderMembers : GoFields → String
  | .nil => ""
  | .cons k v .nil => k ++ ":" ++ renderValue v
  | .cons k v (.cons k2 v2 tl) =>
    k ++ ":" ++ renderValue v ++ " " ++ renderMembers (.cons k2 v2 tl)

def renderElems : GoElems → String
  | .nil => ""
  | .cons v .nil => renderValue v
  | .cons v (.cons w tl) => renderValue v ++ " " ++ renderElems (.cons w tl)

end

/-- Walk a field path: a missing final key yields the zero value (nil);
a missing or non-map intermediate step is an execution error. -/
def walkPath : GoValue → List String → Except String GoValue
  | v, [] => .ok v
  | .obj fs, k :: rest =>
    match findField fs k with
    | some v => walkPath v rest
    | none => if rest.isEmpty then .ok .null else .error "nil data: no entry for key"
  | _, _ :: _ => .error "cannot evaluate field on non-map value"

def execNode (orc : TplOracle) (data : GoFields) :
    TplNode → Except String String
  | .text s => .ok s
  | .field p => (walkPath (.obj data) p).map renderValue
  | .numOf p => (walkPath (.obj data) p).map tplNum
  | .boolOf p => (walkPath (.obj data) p).map tplBool
  | .toJSONOf p => (walkPath (.obj data) p).map toJSONFn
  | .fromJSONOf p =>
    match walkPath (.obj data) p with
    | .ok (.str s) => .ok (renderValue (fromJSONFn s))
    | .ok _ => .error "wrong type for argument: expected string"
    | .error e => .error e
  | .nowNode => .ok orc.nowStr
  | .uuidNode => .ok orc.uuidStr

def execTpl (orc : TplOracle) (tl : List TplNode) (data : GoFields) :
    Except String String :=
  tl.foldlM (fun acc n => (fun s => acc ++ s) <$> execNode orc data n) ""

/-! ## The Transform pipeline (`Transformer.Transform`) -/

inductive TransformErrorKind where
  | templateNotFound
  | inputParse
  | templateExec
  | invalidOutput
deriving DecidableEq, Repr

/-- `TransformError`: the classification plus the wrapping message from the
source. -/
structure TransformError where
  kind : TransformErrorKind
  message : String
deriving DecidableEq, Repr

/-- `Transformer.Transform(ruleID, inputData)`: look up the pre-compiled
template; decode the input with `UseNumber`; execute the template; validate
the produced bytes with `json.Valid`; return a copy of the buffer (an
`Except` result carries no bytes on any failure path). -/
def transform (orc : TplOracle) (templates : List (String × List TplNode))
    (ruleID : String) (inputData : String) : Except TransformError String :=
  match templates.find? (fun kv => kv.fst = ruleID) with
  | none => .error ⟨.templateNotFound, "template not found"⟩
  | some kv =>
    match decodeInputDoc inputData with
    | .error _ => .error ⟨.inputParse, "failed to parse input data"⟩
    | .ok data =>
      match execTpl orc kv.snd data with
      | .error _ => .error ⟨.templateExec, "failed to execute template"⟩
      | .ok output =>
        if jsonValid output then .ok output
        else .error ⟨.invalidOutput, "template output is not valid JSON"⟩

/-! ## Rule model and validation (`internal/config`) -/

structure RuleAPI where
  method : String
  path : String

structure RuleTransform where
  template : String

structure TargetMQTT where
  topic : String
  qos : Int
  retain : Bool

structure Rule where
  id : String
  description : String
  api : RuleAPI
  transform : RuleTransform
  target : TargetMQTT

/-- `ValidateHTTPMethod`: the anchored regex
`^(GET|POST|PUT|PATCH|DELETE)$` is exact membership in the verb set. -/
def validateHTTPMethod (m : String) : Except String Unit :=
  if m = "GET" ∨ m = "POST" ∨ m = "PUT" ∨ m = "PATCH" ∨ m = "DELETE" then .ok ()
  else .error ("invalid HTTP method: " ++ m)

/-- Language of the anchored topic regex `^[^#+]+(/[^#+]+)*$`.  Since the
class `[^#+]` itself matches `/`, the first `[^#+]+` block can absorb any
slashes, so the regex accepts exactly the non-empty strings containing
neither `#` nor `+`. -/
def topicRegexMatches (t : String) : Bool :=
  !t.isEmpty && t.data.all (fun c => c ≠ '#' ∧ c ≠ '+')

/-- `ValidateTopic`. -/
def validateTopic (t : String) : Except String Unit :=
  if t = "" then .error "topic cannot be empty"
  else if topicRegexMatches t then .ok ()
  else .error ("invalid topic format: " ++ t)

/-- `ValidateQoS`. -/
def validateQoS (q : Int) : Except String Unit :=
  if q < 0 ∨ q > 2 then
    .error ("invalid QoS level: " ++ toString q ++ ", must be between 0 and 2")
  else .ok ()

/-- `Rule.Validate` (`part_002`): the checks in source order.  The template
parse uses `Validate`'s own function map, which — unlike the executor's —
has no `uuid7`.  The template-syntax error message wraps the underlying
parser error in Go; the model flattens it to a fixed string. -/
def Rule.validate (r : Rule) : Except String Unit :=
  if r.id = "" then .error "rule ID is required"
  else
    match validateHTTPMethod r.api.method with
    | .error e => .error ("invalid API configuration: " ++ e)
    | .ok () =>
      if r.api.path = "" ∨ r.api.path.data.head? ≠ some '/' then
        .error "API path must start with /"
      else if r.transform.template = "" then .error "transformation template is required"
      else
        match compileTplWith validateVocab r.transform.template with
        | none => .error "invalid template syntax"
        | some _ =>
          match validateTopic r.target.topic with
          | .error e => .error ("invalid target configuration: " ++ e)
          | .ok () =>
            match validateQoS r.target.qos with
            | .error e => .error ("invalid target configuration: " ++ e)
            | .ok () => .ok ()

/-- `LoadRules`, modelled over the rules parsed from the directory's `.json`
files (directory scanning, non-JSON skipping and `json.Unmarshal` of each
file abstracted away): each `(fileName, rule)` is validated in order and the
first failure aborts the whole load, wrapped with the file name. -/
def loadRules (files : List (String × Rule)) : Except String (List Rule) :=
  match files with
  | [] => .ok []
  | (name, r) :: rest =>
    match r.validate with
    | .error e => .error ("invalid rule in file " ++ name ++ ": " ++ e)
    | .ok () =>
      match loadRules rest with
      | .ok rs => .ok (r :: rs)
      | .error e => .error e

/-- The validation predicate exactly as the claim C5 words it (for
refinement comparison with `Rule.validate`): non-empty id; method in the
verb set; path begins with `/`; template parses under the fixed §4.2
function vocabulary (which includes `uuid7`); topic non-empty and matching
the topic regex; QoS in 0..2. -/
def specValidateOk (r : Rule) : Bool :=
  !r.id.isEmpty &&
    (decide (r.api.method = "GET") || decide (r.api.method = "POST") ||
      decide (r.api.method = "PUT") || decide (r.api.method = "PATCH") ||
      decide (r.api.method = "DELETE")) &&
    decide (r.api.path.data.head? = some '/') &&
    (compileTplWith execVocab r.transform.template).isSome &&
    topicRegexMatches r.target.topic &&
    (decide (0 ≤ r.target.qos) && decide (r.target.qos ≤ 2))

/-! ## Observability events (the `metrics.Recorder` calls the pipeline makes) -/

inductive MetricEvent where
  | setActiveRules (n : Nat)
  | incTemplateErrors (id : String)
  | incTransformErrors (id : String)
  | incMQTTPublishAttempts (topic : String)
  | incMQTTPublishFailures (topic : String)
  | observeMQTTPublishDuration (topic : String)
  | setMQTTConnectionStatus (connected : Bool)
  | incMQTTReconnections
deriving DecidableEq, Repr

/-! ## Registry mutations (`AddTemplate` / `RemoveTemplate`) -/

/-- `sync.Map.Store`: replace an existing key or append. -/
def storeTemplate (templates : List (String × List TplNode)) (id : String)
    (tpl : List TplNode) : List (String × List TplNode) :=
  match templates with
  | [] => [(id, tpl)]
  | (k, t) :: rest =>
    if k = id then (id, tpl) :: rest else (k, t) :: storeTemplate rest id tpl

/-- `sync.Map.Delete`. -/
def deleteTemplate (templates : List (String × List TplNode)) (id : String) :
    List (String × List TplNode) :=
  templates.filter (fun kv => kv.fst ≠ id)

/-- `Transformer.AddTemplate`: compile (a parse failure records
`IncTemplateErrors` once in `compileTemplate` and once more in
`AddTemplate`), store, then recount the registry with `Range` and record
`SetActiveRules` before returning. -/
def addTemplate (templates : List (String × List TplNode)) (id templateStr : String) :
    List (String × List TplNode) × List MetricEvent × Except String Unit :=
  match compileTplWith execVocab templateStr with
  | none => (templates, [.incTemplateErrors id, .incTemplateErrors id], .error "template parse error")
  | some tpl =>
    let ts2 := storeTemplate templates id tpl
    (ts2, [.setActiveRules ts2.length], .ok ())

/-- `Transformer.RemoveTemplate`: delete, recount with `Range`, record
`SetActiveRules` before returning. -/
def removeTemplate (templates : List (String × List TplNode)) (id : String) :
    List (String × List TplNode) × List MetricEvent :=
  let ts2 := deleteTemplate templates id
  (ts2, [.setActiveRules ts2.length])

/-! ## MQTT delivery client (`internal/mqtt/client.go`) -/

/-- The fixed acknowledgment timeout of `Client.Publish`
(`token.WaitTimeout(10 * time.Second)`). -/
def publishTimeoutSeconds : Nat := 10

/-- Broker response to one publish: acknowledgment with success or error.
The broker is modelled as a function of the wait bound in seconds; `none`
means no acknowledgment arrived within that bound (`WaitTimeout` returned
false). -/
inductive BrokerAck where
  | ackOk
  | ackErr (msg : String)
deriving DecidableEq, Repr

/-- `Client.Publish(topic, qos, retain, payload)`: record the attempt, wait
up to the 10-second timeout for the acknowledgment; on timeout record a
failure and return a timeout error; on broker error record a failure and
return it; on success record the duration. -/
def publish (broker : Nat → Option BrokerAck) (topic : String) (qos : Int)
    (retain : Bool) (payload : String) : List MetricEvent × Except String Unit :=
  let attempt := MetricEvent.incMQTTPublishAttempts topic
  match broker publishTimeoutSeconds with
  | none => ([attempt, .incMQTTPublishFailures topic], .error "publish timeout")
  | some (.ackErr e) => ([attempt, .incMQTTPublishFailures topic], .error e)
  | some .ackOk => ([attempt, .observeMQTTPublishDuration topic], .ok ())

/-- Outcome of one initial connect attempt: the token's wait timed out, or
it completed with an acknowledgment error, or it connected. -/
inductive ConnAttempt where
  | waitTimeout
  | ackErr (msg : String)
  | ackOk
deriving DecidableEq, Repr

/-- Observable events of the start-up connect loop. -/
inductive ConnEvent where
  | connectAttempt
  | sleepSeconds (n : Nat)
  | setStatus (b : Bool)
deriving DecidableEq, Repr

/-- The successfully constructed client (returned only on connect
success). -/
structure MqttClient where
  broker : String
deriving DecidableEq, Repr

/-- The initial-connection retry loop of `mqtt.New` (`part_004`): attempt
`Connect`; if the token wait times out, fail with `connection timeout`; on
acknowledgment error, fail naming the retry count once `maxRetries` is
exhausted, else set the status gauge false, sleep the configured initial
backoff and retry. -/
def connectLoop (outcome : Nat → ConnAttempt) (initial maxRetries : Nat) (retries : Nat) :
    List ConnEvent × Except String Unit :=
  match outcome retries with
  | .waitTimeout => ([.connectAttempt], .error "connection timeout")
  | .ackOk => ([.connectAttempt, .setStatus true], .ok ())
  | .ackErr e =>
    if maxRetries ≤ retries then
      ([.connectAttempt],
        .error ("failed to connect after " ++ toString retries ++ " retries: " ++ e))
    else
      let rec2 := connectLoop outcome initial maxRetries (retries + 1)
      (.connectAttempt :: .setStatus false :: .sleepSeconds initial :: rec2.fst, rec2.snd)
termination_by maxRetries - retries
decreasing_by
  simp_wf
  omega

/-- `mqtt.New`'s connection phase: run the retry loop from zero retries; on
success record the status gauge true and return the client, otherwise
return the loop's error and no client. -/
def newClient (brokerAddr : String) (outcome : Nat → ConnAttempt)
    (initial maxRetries : Nat) : List ConnEvent × Except String MqttClient :=
  let res := connectLoop outcome initial maxRetries 0
  match res.snd with
  | .ok () => (res.fst, .ok ⟨brokerAddr⟩)
  | .error e => (res.fst, .error e)

/-- The event trace of a run in which every attempt fails by acknowledgment
error: `n` retry blocks (attempt, gauge false, fixed sleep) and a final
attempt. -/
def failTrace (initial : Nat) : Nat → List ConnEvent
  | 0 => [.connectAttempt]
  | n + 1 => .connectAttempt :: .setStatus false :: .sleepSeconds initial :: failTrace initial n

/-! ## Concrete scenario data (spec §8, scenarios A/B) -/

/-- The scenario rule template
`\x7b"id":"\x7b\x7b.x\x7d\x7d","v":\x7b\x7bnum .y\x7d\x7d\x7d`. -/
def scenarioTemplate : String :=
  "\x7b\"id\":\"\x7b\x7b.x\x7d\x7d\",\"v\":\x7b\x7bnum .y\x7d\x7d\x7d"

def scenarioInputB : String := "\x7b\"x\":\"a\",\"y\":\"oops\"\x7d"

def scenarioOutputB : String := "\x7b\"id\":\"a\",\"v\":0\x7d"

/-- A canonical JSON integer literal: optional minus sign, then a non-empty
digit run without a superfluous leading zero. -/
def canonicalIntLitB (s : String) : Bool :=
  let ds :=
    match s.data with
    | c :: t => if c = '-' then t else c :: t
    | [] => []
  !ds.isEmpty && ds.all isDigitB && (decide (ds.head? ≠ some '0') || decide (ds = ['0']))

/-! # Theorems -/

/-! ## Helper lemmas -/

theorem skipWs_cons {c : Char} (l : List Char) (h : isWsB c = false) :
    skipWs (c :: l) = c :: l := by
  simp [skipWs, List.dropWhile_cons, h]

theorem connectLoop_allFail (outcome : Nat → ConnAttempt) (es : Nat → String)
    (h : ∀ i, outcome i = .ackErr (es i)) (initial maxRetries : Nat) :
    ∀ k retries, maxRetries - retries = k → retries ≤ maxRetries →
      connectLoop outcome initial maxRetries retries =
        (failTrace initial k,
         .error ("failed to connect after " ++ toString maxRetries ++ " retries: " ++ es maxRetries)) := by
  intro k
  induction k with
  | zero =>
    intro retries hk hle
    have heq : retries = maxRetries := by omega
    subst heq
    rw [connectLoop, h retries]
    simp [failTrace]
  | succ k ih =>
    intro retries hk hle
    have hlt : ¬ maxRetries ≤ retries := by omega
    rw [connectLoop, h retries]
    simp only [hlt, if_false]
    rw [ih (retries + 1) (by omega) (by omega)]
    simp [failTrace]

theorem failTrace_counts (initial : Nat) :
    ∀ n, (failTrace initial n).count ConnEvent.connectAttempt = n + 1 ∧
      (failTrace initial n).count (ConnEvent.sleepSeconds initial) = n := by
  intro n
  induction n with
  | zero => simp [failTrace]
  | succ n ih =>
    simp only [failTrace, List.count_cons, ih.1, ih.2]
    refine ⟨?_, ?_⟩ <;> simp

/-! ## Claim theorems -/

/-- C3: the template function `bool` passes actual booleans through as
`"true"`/`"false"`; the strings `"true"` and `"false"` pass verbatim and
every other string yields `"false"`; the numeric Go types the switch names
(`int`, `int64`, `float64`) yield `"true"` regardless of value — in
particular `bool(0)` and `bool(0.0)` — while nil yields `"false"` and every
other type (including `json.Number` raw literals, maps and slices) falls to
the default `"false"`. -/
theorem c3_bool_function_semantics :
    (∀ b, tplBool (.boolean b) = (if b then "true" else "false")) ∧
    tplBool (.str "true") = "true" ∧
    tplBool (.str "false") = "false" ∧
    (∀ s, s ≠ "true" → s ≠ "false" → tplBool (.str s) = "false") ∧
    (∀ n, tplBool (.int n) = "true") ∧
    (∀ n, tplBool (.int64 n) = "true") ∧
    (∀ t, tplBool (.float64 t) = "true") ∧
    tplBool (.int 0) = "true" ∧
    tplBool (.float64 "0.0") = "true" ∧
    tplBool .null = "false" ∧
    (∀ lit, tplBool (.number lit) = "false") ∧
    (∀ fs, tplBool (.obj fs) = "false") ∧
    (∀ vs, tplBool (.arr vs) = "false") := by
  refine ⟨fun b => rfl, rfl, rfl, ?_, fun n => rfl, fun n => rfl, fun t => rfl, rfl, rfl,
    rfl, fun lit => rfl, fun fs => rfl, fun vs => rfl⟩
  intro s h1 h2
  simp [tplBool, h1, h2]

theorem c3_bool_function_semantics_witness :
    tplBool (.str "x") = "false" :=
  c3_bool_function_semantics.2.2.2.1 "x" (by decide) (by decide)

/-- C4: the template function `num` yields `"0"` for every value that is
neither numeric-typed, a `json.Number` raw literal, nor a string accepted by
`strconv.ParseFloat` (such strings pass through verbatim); in particular the
scenario rule template applied to input with a non-numeric `y` produces
`\x7b"id":"a","v":0\x7d`. -/
theorem c4_num_non_numeric_defaults :
    (∀ s, goParseFloat64Ok s = false → tplNum (.str s) = "0") ∧
    (∀ s, goParseFloat64Ok s = true → tplNum (.str s) = s) ∧
    tplNum .null = "0" ∧
    (∀ b, tplNum (.boolean b) = "0") ∧
    (∀ fs, tplNum (.obj fs) = "0") ∧
    (∀ vs, tplNum (.arr vs) = "0") ∧
    (∀ orc, (compileTplWith execVocab scenarioTemplate).map
        (fun tl => transform orc [("rule1", tl)] "rule1" scenarioInputB) =
      some (.ok scenarioOutputB)) := by
  refine ⟨?_, ?_, rfl, fun b => rfl, fun fs => rfl, fun vs => rfl, fun orc => rfl⟩
  · intro s h
    simp [tplNum, h]
  · intro s h
    simp [tplNum, h]

theorem c4_num_non_numeric_defaults_witness :
    tplNum (.str "oops") = "0" ∧ tplNum (.str "1e999") = "0" ∧
      tplNum (.str "1.5") = "1.5" :=
  ⟨c4_num_non_numeric_defaults.1 "oops" (by decide),
   c4_num_non_numeric_defaults.1 "1e999" (by set_option maxRecDepth 8000 in decide),
   c4_num_non_numeric_defaults.2.1 "1.5" (by set_option maxRecDepth 8000 in decide)⟩

/-- C7: `Publish` waits on the fixed 10-second acknowledgment timeout; an
unacknowledged publish returns the timeout error with the failure event
fired exactly once; a broker error is returned with one failure event; a
success observes the duration; exactly one attempt event is emitted per
call in every case. -/
theorem c7_publish_timeout_semantics :
    publishTimeoutSeconds = 10 ∧
    (∀ (broker : Nat → Option BrokerAck) (topic : String) (qos : Int) (retain : Bool)
        (payload : String),
      ((publish broker topic qos retain payload).fst.count
        (MetricEvent.incMQTTPublishAttempts topic) = 1) ∧
      (broker publishTimeoutSeconds = none →
        publish broker topic qos retain payload =
          ([.incMQTTPublishAttempts topic, .incMQTTPublishFailures topic],
           .error "publish timeout")) ∧
      (∀ e, broker publishTimeoutSeconds = some (.ackErr e) →
        publish broker topic qos retain payload =
          ([.incMQTTPublishAttempts topic, .incMQTTPublishFailures topic], .error e)) ∧
      (broker publishTimeoutSeconds = some .ackOk →
        publish broker topic qos retain payload =
          ([.incMQTTPublishAttempts topic, .observeMQTTPublishDuration topic], .ok ()))) := by
  refine ⟨rfl, ?_⟩
  intro broker topic qos retain payload
  refine ⟨?_, ?_, ?_, ?_⟩
  · cases hb : broker publishTimeoutSeconds with
    | none => simp [publish, hb]
    | some a =>
      cases a with
      | ackOk => simp [publish, hb]
      | ackErr e => simp [publish, hb]
  · intro h
    simp [publish, h]
  · intro e h
    simp [publish, h]
  · intro h
    simp [publish, h]

theorem c7_publish_timeout_semantics_witness :
    publish (fun _ => none) "sensors/data" 1 false "payload" =
      ([.incMQTTPublishAttempts "sensors/data", .incMQTTPublishFailures "sensors/data"],
       .error "publish timeout") :=
  ((c7_publish_timeout_semantics.2 (fun _ => none) "sensors/data" 1 false "payload").2.1) rfl

/-- C8: when every start-up connect attempt fails with an acknowledgment
error, `New` returns an error naming the retry count (`maxRetries`) and no
client value; the trace is `maxRetries` retry blocks — attempt, gauge
false, a sleep of exactly the configured initial backoff — followed by the
final attempt, so attempts are bounded by `maxRetries + 1`. -/
theorem c8_connect_retries_exhausted :
    ∀ (brokerAddr : String) (outcome : Nat → ConnAttempt) (initial maxRetries : Nat)
      (es : Nat → String),
      (∀ i, outcome i = .ackErr (es i)) →
      newClient brokerAddr outcome initial maxRetries =
        (failTrace initial maxRetries,
         .error ("failed to connect after " ++ toString maxRetries ++ " retries: " ++
           es maxRetries)) ∧
      (failTrace initial maxRetries).count ConnEvent.connectAttempt = maxRetries + 1 ∧
      (failTrace initial maxRetries).count (ConnEvent.sleepSeconds initial) = maxRetries := by
  intro brokerAddr outcome initial maxRetries es h
  have hloop := connectLoop_allFail outcome es h initial maxRetries maxRetries 0 (by omega)
    (by omega)
  refine ⟨?_, (failTrace_counts initial maxRetries).1, (failTrace_counts initial maxRetries).2⟩
  simp [newClient, hloop]

theorem c8_connect_retries_exhausted_witness :
    newClient "tcp://broker:1883" (fun _ => .ackErr "connection refused") 5 2 =
      (failTrace 5 2, .error "failed to connect after 2 retries: connection refused") :=
  (c8_connect_retries_exhausted "tcp://broker:1883" (fun _ => .ackErr "connection refused")
    5 2 (fun _ => "connection refused") (fun _ => rfl)).1

/-- C9: `AddTemplate` (on compile success) stores the compiled template and
reports `SetActiveRules` with exactly the resulting registry size before
returning; `RemoveTemplate` deletes and likewise reports the resulting
registry size before returning. -/
theorem c9_active_rules_count :
    (∀ templates id templateStr tpl,
      compileTplWith execVocab templateStr = some tpl →
      addTemplate templates id templateStr =
        (storeTemplate templates id tpl,
         [.setActiveRules (storeTemplate templates id tpl).length], .ok ())) ∧
    (∀ templates id,
      removeTemplate templates id =
        (deleteTemplate templates id,
         [.setActiveRules (deleteTemplate templates id).length])) := by
  constructor
  · intro templates id templateStr tpl h
    simp [addTemplate, h]
  · intro templates id
    rfl

theorem c9_active_rules_count_witness :
    addTemplate [] "r1" "x" =
      ([("r1", [TplNode.text "x"])], [MetricEvent.setActiveRules 1], .ok ()) :=
  c9_active_rules_count.1 [] "r1" "x" [TplNode.text "x"] rfl

/-- C1 counterexample: at the registered rule `r` and the input `42` (a
syntactically valid JSON number), `Transform` neither returns valid-JSON
output nor fails with the invalid-output classification — it fails with the
input-parse classification — refuting the claim's exclusive dichotomy. -/
theorem c1_counterexample :
    transform ⟨"", ""⟩ [("r", [TplNode.text "\x7b\x7d"])] "r" "42" =
      .error ⟨.inputParse, "failed to parse input data"⟩ ∧
    TransformErrorKind.inputParse ≠ TransformErrorKind.invalidOutput :=
  ⟨rfl, by decide⟩

/-- C1 (amended): `Transform` never returns bytes that are not valid JSON:
on success the output satisfies `json.Valid`; every failure carries exactly
one of the four classifications and no output bytes; and whenever the
template executes but produces invalid JSON, the failure classification is
precisely `InvalidOutputError`. -/
theorem c1_transform_output_validity :
    ∀ (orc : TplOracle) (templates : List (String × List TplNode)) (ruleID input : String),
      (∀ out, transform orc templates ruleID input = .ok out → jsonValid out = true) ∧
      (∀ e, transform orc templates ruleID input = .error e →
        (e.kind = .templateNotFound ∨ e.kind = .inputParse ∨ e.kind = .templateExec ∨
          e.kind = .invalidOutput)) ∧
      (∀ kv data out, templates.find? (fun p => p.fst = ruleID) = some kv →
        decodeInputDoc input = .ok data →
        execTpl orc kv.snd data = .ok out →
        jsonValid out = false →
        transform orc templates ruleID input =
          .error ⟨.invalidOutput, "template output is not valid JSON"⟩) := by
  intro orc templates ruleID input
  refine ⟨?_, ?_, ?_⟩
  · intro out h
    unfold transform at h
    split at h
    · simp at h
    · split at h
      · simp at h
      · split at h
        · simp at h
        · split at h
          · rename_i hv
            cases h
            exact hv
          · simp at h
  · intro e h
    unfold transform at h
    split at h
    · cases h
      simp
    · split at h
      · cases h
        simp
      · split at h
        · cases h
          simp
        · split at h
          · simp at h
          · cases h
            simp
  · intro kv data out hf hd he hv
    simp [transform, hf, hd, he, hv]

theorem c1_transform_output_validity_witness :
    transform ⟨"", ""⟩ [("r", [TplNode.text "oops"])] "r" "\x7b\x7d" =
      .error ⟨.invalidOutput, "template output is not valid JSON"⟩ :=
  (c1_transform_output_validity ⟨"", ""⟩ [("r", [TplNode.text "oops"])] "r" "\x7b\x7d").2.2
    ("r", [TplNode.text "oops"]) .nil "oops" rfl rfl rfl rfl

/-- C10 counterexample: the input `null` is syntactically valid JSON whose
top-level value is not an object, yet `Transform` does not fail with the
input-parse classification: JSON `null` is a decode no-op for the target
map (the document is left nil/empty) and the template executes. -/
theorem c10_counterexample :
    jsonValid "null" = true ∧
    parseTop true "null" = some (.null, []) ∧
    decodeInputDoc "null" = .ok .nil ∧
    transform ⟨"", ""⟩ [("r", [TplNode.text "\x7b\x7d"])] "r" "null" = .ok "\x7b\x7d" :=
  ⟨rfl, rfl, rfl, rfl⟩

/-- C10 (amended): for a registered rule, every input whose first JSON value
is neither an object nor `null` — and every input with no parseable JSON
value at all — makes `Transform` fail with the input-parse classification
(`"failed to parse input data"`) and return no output. -/
theorem c10_non_object_input_rejected :
    ∀ (orc : TplOracle) (templates : List (String × List TplNode)) (ruleID input : String) kv,
      templates.find? (fun p => p.fst = ruleID) = some kv →
      (∀ v rest, parseTop true input = some (v, rest) →
        (∀ fs, v ≠ .obj fs) → v ≠ .null →
        transform orc templates ruleID input =
          .error ⟨.inputParse, "failed to parse input data"⟩) ∧
      (parseTop true input = none →
        transform orc templates ruleID input =
          .error ⟨.inputParse, "failed to parse input data"⟩) := by
  intro orc templates ruleID input kv hf
  constructor
  · intro v rest hp hobj hnull
    have hd : decodeInputDoc input = .error () := by
      unfold decodeInputDoc
      rw [hp]
      cases v with
      | obj fs => exact absurd rfl (hobj fs)
      | null => exact absurd rfl hnull
      | _ => rfl
    simp [transform, hf, hd]
  · intro hp
    have hd : decodeInputDoc input = .error () := by
      unfold decodeInputDoc
      rw [hp]
    simp [transform, hf, hd]

theorem c10_non_object_input_rejected_witness :
    transform ⟨"", ""⟩ [("r", [TplNode.text "x"])] "r" "[1]" =
      .error ⟨.inputParse, "failed to parse input data"⟩ :=
  (c10_non_object_input_rejected ⟨"", ""⟩ [("r", [TplNode.text "x"])] "r" "[1]"
      ("r", [TplNode.text "x"]) rfl).1 (.arr (.cons (.number "1") .nil)) [] rfl
    (fun fs => by simp) (by simp)

/-- C5 counterexample: a rule with a valid id, method, path, topic and QoS
and an EMPTY template passes every check the claim lists (an empty template
parses under the fixed vocabulary), yet `Validate` rejects it — the code
has a separate non-empty-template check the claim omits — and one such
rule fails the whole load. -/
theorem c5_counterexample :
    specValidateOk ⟨"rule-1", "", ⟨"GET", "/p"⟩, ⟨""⟩, ⟨"t/x", 0, false⟩⟩ = true ∧
    Rule.validate ⟨"rule-1", "", ⟨"GET", "/p"⟩, ⟨""⟩, ⟨"t/x", 0, false⟩⟩ =
      .error "transformation template is required" ∧
    loadRules [("r1.json", ⟨"rule-1", "", ⟨"GET", "/p"⟩, ⟨""⟩, ⟨"t/x", 0, false⟩⟩)] =
      .error "invalid rule in file r1.json: transformation template is required" :=
  ⟨rfl, rfl, rfl⟩

/-- C5 (amended): `Validate` checks, in order: non-empty id; method in
\x7bGET,POST,PUT,PATCH,DELETE\x7d; path beginning with `/`; NON-EMPTY
template text; template parses under `Validate`'s own vocabulary (which,
unlike the executor's, has no `uuid7`); topic non-empty and matching
`^[^#+]+(/[^#+]+)*$`; QoS in 0..2.  The first failing check produces a
descriptive error naming the failing field (the rule id is not part of the
message; the loader wraps it with the file name), and loading succeeds iff
every rule passes validation, the first invalid rule failing the whole
load. -/
theorem c5_validate_checks_and_fail_fast_load :
    (∀ r : Rule, r.validate = .ok () ↔
      (r.id ≠ "" ∧ validateHTTPMethod r.api.method = .ok () ∧
        ¬(r.api.path = "" ∨ r.api.path.data.head? ≠ some '/') ∧
        r.transform.template ≠ "" ∧
        (compileTplWith validateVocab r.transform.template).isSome = true ∧
        validateTopic r.target.topic = .ok () ∧ validateQoS r.target.qos = .ok ())) ∧
    (∀ r : Rule, r.id = "" → r.validate = .error "rule ID is required") ∧
    (∀ (r : Rule) e, r.id ≠ "" → validateHTTPMethod r.api.method = .error e →
      r.validate = .error ("invalid API configuration: " ++ e)) ∧
    (∀ r : Rule, r.id ≠ "" → validateHTTPMethod r.api.method = .ok () →
      (r.api.path = "" ∨ r.api.path.data.head? ≠ some '/') →
      r.validate = .error "API path must start with /") ∧
    (∀ r : Rule, r.id ≠ "" → validateHTTPMethod r.api.method = .ok () →
      ¬(r.api.path = "" ∨ r.api.path.data.head? ≠ some '/') →
      r.transform.template = "" →
      r.validate = .error "transformation template is required") ∧
    (∀ r : Rule, r.id ≠ "" → validateHTTPMethod r.api.method = .ok () →
      ¬(r.api.path = "" ∨ r.api.path.data.head? ≠ some '/') →
      r.transform.template ≠ "" →
      compileTplWith validateVocab r.transform.template = none →
      r.validate = .error "invalid template syntax") ∧
    (∀ (r : Rule) tpl e, r.id ≠ "" → validateHTTPMethod r.api.method = .ok () →
      ¬(r.api.path = "" ∨ r.api.path.data.head? ≠ some '/') →
      r.transform.template ≠ "" →
      compileTplWith validateVocab r.transform.template = some tpl →
      validateTopic r.target.topic = .error e →
      r.validate = .error ("invalid target configuration: " ++ e)) ∧
    (∀ (r : Rule) tpl e, r.id ≠ "" → validateHTTPMethod r.api.method = .ok () →
      ¬(r.api.path = "" ∨ r.api.path.data.head? ≠ some '/') →
      r.transform.template ≠ "" →
      compileTplWith validateVocab r.transform.template = some tpl →
      validateTopic r.target.topic = .ok () →
      validateQoS r.target.qos = .error e →
      r.validate = .error ("invalid target configuration: " ++ e)) ∧
    (∀ files : List (String × Rule),
      (∃ rs, loadRules files = .ok rs) ↔ ∀ fr ∈ files, (Prod.snd fr).validate = .ok ()) ∧
    (∀ (pre : List (String × Rule)) name r post e,
      (∀ fr ∈ pre, (Prod.snd fr).validate = .ok ()) →
      Rule.validate r = .error e →
      loadRules (pre ++ (name, r) :: post) =
        .error ("invalid rule in file " ++ name ++ ": " ++ e)) := by
  refine ⟨?_, ?_, ?_, ?_, ?_, ?_, ?_, ?_, ?_, ?_⟩
  · intro r
    constructor
    · intro h
      by_cases h1 : r.id = ""
      · simp [Rule.validate, h1] at h
      · cases h2 : validateHTTPMethod r.api.method with
        | error e => simp [Rule.validate, h1, h2] at h
        | ok u =>
          cases u
          by_cases h3 : (r.api.path = "" ∨ r.api.path.data.head? ≠ some '/')
          · simp [Rule.validate, h1, h2, h3] at h
          · by_cases h4 : r.transform.template = ""
            · simp [Rule.validate, h1, h2, h3, h4] at h
            · cases h5 : compileTplWith validateVocab r.transform.template with
              | none => simp [Rule.validate, h1, h2, h3, h4, h5] at h
              | some tpl =>
                cases h6 : validateTopic r.target.topic with
                | error e => simp [Rule.validate, h1, h2, h3, h4, h5, h6] at h
                | ok u2 =>
                  cases u2
                  cases h7 : validateQoS r.target.qos with
                  | error e => simp [Rule.validate, h1, h2, h3, h4, h5, h6, h7] at h
                  | ok u3 =>
                    cases u3
                    exact ⟨h1, rfl, h3, h4, by simp [h5], rfl, rfl⟩
    · rintro ⟨h1, h2, h3, h4, h5, h6, h7⟩
      cases hc : compileTplWith validateVocab r.transform.template with
      | none => simp [hc] at h5
      | some tpl => simp [Rule.validate, h1, h2, h3, h4, hc, h6, h7]
  · intro r h1
    simp [Rule.validate, h1]
  · intro r e h1 h2
    simp [Rule.validate, h1, h2]
  · intro r h1 h2 h3
    simp [Rule.validate, h1, h2, h3]
  · intro r h1 h2 h3 h4
    simp [Rule.validate, h1, h2, h3, h4]
  · intro r h1 h2 h3 h4 h5
    simp [Rule.validate, h1, h2, h3, h4, h5]
  · intro r tpl e h1 h2 h3 h4 h5 h6
    simp [Rule.validate, h1, h2, h3, h4, h5, h6]
  · intro r tpl e h1 h2 h3 h4 h5 h6 h7
    simp [Rule.validate, h1, h2, h3, h4, h5, h6, h7]
  · intro files
    induction files with
    | nil => simp [loadRules]
    | cons fr rest ih =>
      obtain ⟨name, r⟩ := fr
      constructor
      · rintro ⟨rs, hrs⟩
        unfold loadRules at hrs
        cases hv : r.validate with
        | error e => rw [hv] at hrs; simp at hrs
        | ok u =>
          cases u
          rw [hv] at hrs
          cases hld : loadRules rest with
          | error e => rw [hld] at hrs; simp at hrs
          | ok rs2 =>
            intro fr hfr
            rcases List.mem_cons.mp hfr with heq | hmem
            · subst heq
              exact hv
            · exact (ih.mp ⟨rs2, hld⟩) fr hmem
      · intro hall
        have hv : r.validate = .ok () := hall (name, r) (by simp)
        obtain ⟨rs2, hld⟩ := ih.mpr (fun fr hfr => hall fr (List.mem_cons_of_mem _ hfr))
        exact ⟨r :: rs2, by simp [loadRules, hv, hld]⟩
  · intro pre name r post e
    induction pre with
    | nil =>
      intro hpre hv
      simp [loadRules, hv]
    | cons fr rest ih =>
      intro hpre hv
      obtain ⟨n2, r2⟩ := fr
      have h2 : r2.validate = .ok () := hpre (n2, r2) (by simp)
      have hrec := ih (fun q hq => hpre q (List.mem_cons_of_mem _ hq)) hv
      simp [loadRules, h2, hrec]

theorem c5_validate_checks_and_fail_fast_load_witness :
    Rule.validate ⟨"", "", ⟨"GET", "/p"⟩, ⟨"x"⟩, ⟨"t", 0, false⟩⟩ =
      .error "rule ID is required" :=
  c5_validate_checks_and_fail_fast_load.2.1 ⟨"", "", ⟨"GET", "/p"⟩, ⟨"x"⟩, ⟨"t", 0, false⟩⟩ rfl

/-! ## Number-literal preservation (claim C2) -/

theorem takeWhile_digits_append (ds rest : List Char)
    (h1 : ∀ c ∈ ds, isDigitB c = true)
    (h2 : ∀ c, rest.head? = some c → isDigitB c = false) :
    (ds ++ rest).takeWhile isDigitB = ds ∧ (ds ++ rest).dropWhile isDigitB = rest := by
  induction ds with
  | nil =>
    cases rest with
    | nil => simp
    | cons c r =>
      have hc := h2 c rfl
      simp [List.takeWhile_cons, List.dropWhile_cons, hc]
  | cons d t ih =>
    have hd := h1 d (by simp)
    have iht := ih (fun c hc => h1 c (by simp [hc]))
    simp [List.takeWhile_cons, List.dropWhile_cons, hd, iht.1, iht.2]

theorem span_digits_append (ds rest : List Char)
    (h1 : ∀ c ∈ ds, isDigitB c = true)
    (h2 : ∀ c, rest.head? = some c → isDigitB c = false) :
    List.span isDigitB (ds ++ rest) = (ds, rest) := by
  have h := takeWhile_digits_append ds rest h1 h2
  rw [List.span_eq_take_drop, h.1, h.2]

/-- Unpack the canonical-integer-literal predicate. -/
theorem canonicalIntLit_cases (lit : String) (h : canonicalIntLitB lit = true) :
    (∃ t, lit.data = '-' :: t ∧ t ≠ [] ∧ (∀ c ∈ t, isDigitB c = true) ∧
      (t.head? ≠ some '0' ∨ t = ['0'])) ∨
    (lit.data ≠ [] ∧ (∀ c ∈ lit.data, isDigitB c = true) ∧
      (lit.data.head? ≠ some '0' ∨ lit.data = ['0'])) := by
  cases hld : lit.data with
  | nil => simp [canonicalIntLitB, hld] at h
  | cons c t =>
    by_cases hc : c = '-'
    · subst hc
      left
      simp only [canonicalIntLitB, hld, if_true] at h
      rw [Bool.and_eq_true, Bool.and_eq_true, Bool.or_eq_true] at h
      obtain ⟨⟨hne2, hall⟩, hz2⟩ := h
      refine ⟨t, rfl, by simpa using hne2, ?_, ?_⟩
      · intro x hx
        exact List.all_eq_true.mp hall x hx
      · rcases hz2 with hz2 | hz2
        · exact Or.inl (by simpa using hz2)
        · exact Or.inr (by simpa using hz2)
    · right
      simp only [canonicalIntLitB, hld] at h
      rw [if_neg hc] at h
      rw [Bool.and_eq_true, Bool.and_eq_true, Bool.or_eq_true] at h
      obtain ⟨⟨hne2, hall⟩, hz2⟩ := h
      refine ⟨by simp, ?_, ?_⟩
      · intro x hx
        exact List.all_eq_true.mp hall x hx
      · rcases hz2 with hz2 | hz2
        · exact Or.inl (by simpa using hz2)
        · exact Or.inr (by simpa using hz2)

theorem parseNumLit_intLit (lit : String) (h : canonicalIntLitB lit = true) (rest : List Char)
    (hrest : ∀ c, rest.head? = some c →
      (isDigitB c = false ∧ c ≠ '.' ∧ c ≠ 'e' ∧ c ≠ 'E')) :
    parseNumLit (lit.data ++ rest) = some (lit.data, rest) := by
  have hends : ∀ c, rest.head? = some c → isDigitB c = false := fun c hc => (hrest c hc).1
  rcases canonicalIntLit_cases lit h with ⟨t, hld, hne, hdig, hz⟩ | ⟨hne, hdig, hz⟩
  · have hspan := span_digits_append t rest hdig hends
    have hlz : ¬(t.head? = some '0' ∧ t.length > 1) := by
      rcases hz with hz | hz
      · intro hcon
        exact hz hcon.1
      · subst hz
        intro hcon
        simp at hcon
    rw [hld]
    show parseNumLit ('-' :: (t ++ rest)) = some ('-' :: t, rest)
    simp only [parseNumLit, reduceIte, hspan]
    rw [if_neg (by simpa using hne), if_neg (by simpa using hlz)]
    cases rest with
    | nil => simp
    | cons c r =>
      obtain ⟨hd, hdot, he, hE⟩ := hrest c rfl
      simp [hdot, he, hE]
  · cases hld : lit.data with
    | nil => exact absurd hld hne
    | cons c t =>
      have hcm : c ≠ '-' := by
        have hcd := hdig c (by simp [hld])
        intro heq
        rw [heq] at hcd
        exact absurd hcd (by decide)
      have hspan := span_digits_append (c :: t) rest
        (by
          intro x hx
          exact hdig x (by simp [hld, hx])) hends
      have hlz : ¬((c :: t).head? = some '0' ∧ (c :: t).length > 1) := by
        rw [hld] at hz
        rcases hz with hz | hz
        · intro hcon
          exact hz hcon.1
        · rw [hz]
          intro hcon
          simp at hcon
      rw [List.cons_append] at hspan
      show parseNumLit (c :: (t ++ rest)) = some (c :: t, rest)
      simp only [parseNumLit]
      rw [if_neg hcm]
      simp only [hspan]
      rw [if_neg (by simp), if_neg (by simpa using hlz)]
      cases rest with
      | nil => simp
      | cons c2 r =>
        obtain ⟨hd, hdot, he, hE⟩ := hrest c2 rfl
        simp [hdot, he, hE]

theorem isDigitB_not_ws {c : Char} (h : isDigitB c = true) : isWsB c = false := by
  simp only [isDigitB, Bool.and_eq_true, decide_eq_true_eq] at h
  simp only [isWsB]
  simp only [Bool.or_eq_false_iff, decide_eq_false_iff_not]
  omega

/-- A canonical integer literal's head character selects the number branch
of the value parser. -/
theorem intLit_head_dispatch (c : Char) (h : isDigitB c = true ∨ c = '-') :
    isWsB c = false ∧ c ≠ 't' ∧ c ≠ 'f' ∧ c ≠ 'n' ∧ c ≠ '\"' ∧ c ≠ '\x7b' ∧ c ≠ '[' := by
  rcases h with h | h
  · simp only [isDigitB, Bool.and_eq_true, decide_eq_true_eq] at h
    refine ⟨by simp only [isWsB, Bool.or_eq_false_iff, decide_eq_false_iff_not]; omega,
      ?_, ?_, ?_, ?_, ?_, ?_⟩ <;>
      · intro heq
        rw [heq] at h
        revert h
        decide
  · subst h
    refine ⟨by decide, by decide, by decide, by decide, by decide, by decide, by decide⟩

theorem parseVal_intLit (un : Bool) (f : Nat) (lit : String) (h : canonicalIntLitB lit = true)
    (rest : List Char)
    (hrest : ∀ c, rest.head? = some c →
      (isDigitB c = false ∧ c ≠ '.' ∧ c ≠ 'e' ∧ c ≠ 'E')) :
    parseVal un (f + 1) (lit.data ++ rest) =
      some (if un then GoValue.number lit else GoValue.float64 lit, rest) := by
  have hnum := parseNumLit_intLit lit h rest hrest
  have hhead : ∀ c t, lit.data = c :: t → (isDigitB c = true ∨ c = '-') := by
    intro c t hld
    rcases canonicalIntLit_cases lit h with ⟨t2, hld2, _, _, _⟩ | ⟨_, hdig, _⟩
    · rw [hld2] at hld
      cases hld
      right
      rfl
    · left
      exact hdig c (by simp [hld])
  cases hld : lit.data with
  | nil =>
    exfalso
    rcases canonicalIntLit_cases lit h with ⟨t2, hld2, _, _, _⟩ | ⟨hne, _, _⟩
    · rw [hld] at hld2
      cases hld2
    · exact hne hld
  | cons c t =>
    obtain ⟨hw, ht, hf2, hn, hq, hb, hbr⟩ := intLit_head_dispatch c (hhead c t hld)
    rw [hld] at hnum
    have hmk : String.mk (c :: t) = lit := by
      rw [← hld]
    simp only [parseVal, List.cons_append, skipWs_cons _ hw]
    rw [if_neg ht, if_neg hf2, if_neg hn, if_neg hq, if_neg hb, if_neg hbr]
    have hnum2 : parseNumLit (c :: (t ++ rest)) = some (c :: t, rest) := hnum
    rw [hnum2]
    cases un <;> simp [hmk]

theorem parseMembers_y (f : Nat) (lit : String) (hc : canonicalIntLitB lit = true) :
    parseMembers true (f + 1 + 1) ('\"' :: 'y' :: '\"' :: ':' :: (lit.data ++ ['\x7d'])) .nil =
      some (.obj (.cons "y" (.number lit) .nil), []) := by
  have hv := parseVal_intLit true f lit hc ['\x7d'] (by
    intro c hc2
    simp at hc2
    subst hc2
    refine ⟨by decide, by decide, by decide, by decide⟩)
  simp [parseMembers, parseStr, parseStrBody, skipWs, isWsB, hv, mapInsert]

theorem parseVal_yObj (f : Nat) (lit : String) (hc : canonicalIntLitB lit = true) :
    parseVal true (f + 1 + 1 + 1)
      ('\x7b' :: '\"' :: 'y' :: '\"' :: ':' :: (lit.data ++ ['\x7d'])) =
      some (.obj (.cons "y" (.number lit) .nil), []) := by
  have hm := parseMembers_y f lit hc
  simp [parseVal, skipWs, isWsB, hm]

/-- C2: input decoding (with `decoder.UseNumber()`) preserves the exact
textual form of every canonical integer literal, of any length — in
particular, every literal of up to (at least) 15 significant digits; the
`num` template function echoes a `json.Number` literal verbatim, and `num`
is idempotent on such literals: reinterpreting its result as a raw number
and applying `num` again reproduces the same text. -/
theorem c2_integer_literal_preservation :
    (∀ lit : String, canonicalIntLitB lit = true →
      decodeInputDoc ("\x7b\"y\":" ++ lit ++ "\x7d") =
        .ok (.cons "y" (.number lit) .nil)) ∧
    (∀ lit, tplNum (.number lit) = lit) ∧
    (∀ lit, tplNum (.number (tplNum (.number lit))) = tplNum (.number lit)) := by
  refine ⟨?_, fun lit => rfl, fun lit => rfl⟩
  intro lit hc
  have hdata : ("\x7b\"y\":" ++ lit ++ "\x7d").data =
      '\x7b' :: '\"' :: 'y' :: '\"' :: ':' :: (lit.data ++ ['\x7d']) := by
    rw [String.data_append, String.data_append]
    rfl
  have hfuel : ('\x7b' :: '\"' :: 'y' :: '\"' :: ':' :: (lit.data ++ ['\x7d'])).length + 1 =
      (lit.data.length + 4) + 1 + 1 + 1 := by
    simp [List.length_append]
  unfold decodeInputDoc parseTop
  rw [hdata, hfuel, parseVal_yObj (lit.data.length + 4) lit hc]

theorem c2_integer_literal_preservation_witness :
    canonicalIntLitB "123456789012345" = true ∧
    decodeInputDoc "\x7b\"y\":123456789012345\x7d" =
      .ok (.cons "y" (.number "123456789012345") .nil) :=
  ⟨by decide, by
    have h := c2_integer_literal_preservation.1 "123456789012345" (by decide)
    simpa using h⟩

/-! ## Round-trip lemmas (claim C6) -/

theorem charListLt_irrefl : ∀ l, charListLt l l = false := by
  intro l
  induction l with
  | nil => rfl
  | cons c t ih => simp [charListLt, ih]

theorem charListLt_asymm : ∀ a b, charListLt a b = true → charListLt b a = false := by
  intro a
  induction a with
  | nil =>
    intro b h
    cases b with
    | nil => simpa [charListLt] using h
    | cons d u => rfl
  | cons c t ih =>
    intro b h
    cases b with
    | nil => simp [charListLt] at h
    | cons d u =>
      simp only [charListLt] at h ⊢
      by_cases h1 : c.toNat < d.toNat
      · rw [if_neg (by omega), if_pos h1]
      · by_cases h2 : d.toNat < c.toNat
        · rw [if_neg h1, if_pos h2] at h
          exact absurd h (by simp)
        · rw [if_neg h1, if_neg h2] at h
          rw [if_neg h2, if_neg h1]
          exact ih u h

theorem strLt_asymm {a b : String} (h : strLt a b = true) : strLt b a = false :=
  charListLt_asymm a.data b.data h

theorem strLt_ne {a b : String} (h : strLt a b = true) : a ≠ b := by
  intro heq
  subst heq
  rw [strLt, charListLt_irrefl] at h
  cases h

theorem hexVal_hexDigit : ∀ m, m < 16 → hexVal (hexDigit m) = some m := by decide

theorem escBody_cons (c : Char) (t : List Char) :
    escBody (c :: t) = escapeChar c ++ escBody t := rfl

theorem parseStrBody_escBody : ∀ (l : List Char) (f : Nat) (rest : List Char),
    (escBody l).length < f →
    parseStrBody f (escBody l ++ '\"' :: rest) = some (l, rest) := by
  intro l
  induction l with
  | nil =>
    intro f rest hf
    cases f with
    | zero => omega
    | succ f2 => simp [escBody, parseStrBody]
  | cons c t ih =>
    intro f rest hf
    rw [escBody_cons] at hf ⊢
    by_cases h1 : c = '\"'
    · subst h1
      cases f with
      | zero => simp at hf
      | succ f2 =>
        rw [show escapeChar '\"' = ['\\', '\"'] from rfl]
        simp only [List.cons_append, List.nil_append, List.append_assoc]
        simp only [parseStrBody]
        rw [ih f2 rest (by simp [escBody_cons, escapeChar] at hf; omega)]
        simp
    · by_cases h2 : c = '\\'
      · subst h2
        cases f with
        | zero => simp at hf
        | succ f2 =>
          rw [show escapeChar '\\' = ['\\', '\\'] from rfl]
          simp only [List.cons_append, List.nil_append, List.append_assoc]
          simp only [parseStrBody]
          rw [ih f2 rest (by simp [escBody_cons, escapeChar] at hf; omega)]
          simp
      · by_cases h3 : c.toNat = 10
        · cases f with
          | zero => simp [escapeChar, h1, h2, h3] at hf
          | succ f2 =>
            rw [show escapeChar c = ['\\', 'n'] by simp [escapeChar, h1, h2, h3]]
            simp only [List.cons_append, List.nil_append, List.append_assoc]
            simp only [parseStrBody]
            rw [ih f2 rest (by simp [escapeChar, h1, h2, h3] at hf; omega)]
            have hc : Char.ofNat 10 = c := by
              rw [← h3, Char.ofNat_toNat]
            simp
            exact hc
        · by_cases h4 : c.toNat = 13
          · cases f with
            | zero => simp [escapeChar, h1, h2, h3, h4] at hf
            | succ f2 =>
              rw [show escapeChar c = ['\\', 'r'] by simp [escapeChar, h1, h2, h3, h4]]
              simp only [List.cons_append, List.nil_append, List.append_assoc]
              simp only [parseStrBody]
              rw [ih f2 rest (by simp [escapeChar, h1, h2, h3, h4] at hf; omega)]
              have hc : Char.ofNat 13 = c := by
                rw [← h4, Char.ofNat_toNat]
              simp
              exact hc
          · by_cases h5 : c.toNat = 9
            · cases f with
              | zero => simp [escapeChar, h1, h2, h3, h4, h5] at hf
              | succ f2 =>
                rw [show escapeChar c = ['\\', 't'] by simp [escapeChar, h1, h2, h3, h4, h5]]
                simp only [List.cons_append, List.nil_append, List.append_assoc]
                simp only [parseStrBody]
                rw [ih f2 rest (by simp [escapeChar, h1, h2, h3, h4, h5] at hf; omega)]
                have hc : Char.ofNat 9 = c := by
                  rw [← h5, Char.ofNat_toNat]
                simp
                exact hc
            · by_cases h6 : c.toNat < 32
              · cases f with
                | zero => simp [escapeChar, h1, h2, h3, h4, h5, h6] at hf
                | succ f2 =>
                  rw [show escapeChar c =
                      ['\\', 'u', '0', '0', hexDigit (c.toNat / 16), hexDigit (c.toNat % 16)] by
                    simp [escapeChar, h1, h2, h3, h4, h5, h6]]
                  simp only [List.cons_append, List.nil_append, List.append_assoc]
                  simp only [parseStrBody]
                  simp only [show hexVal '0' = some 0 from rfl,
                    hexVal_hexDigit (c.toNat / 16) (by omega),
                    hexVal_hexDigit (c.toNat % 16) (by omega)]
                  have hn : ((0 * 16 + 0) * 16 + c.toNat / 16) * 16 + c.toNat % 16 = c.toNat := by
                    omega
                  simp only [hn]
                  rw [if_neg (by omega : ¬(0xD800 ≤ c.toNat ∧ c.toNat ≤ 0xDFFF))]
                  rw [ih f2 rest (by simp [escapeChar, h1, h2, h3, h4, h5, h6] at hf; omega)]
                  simp [Char.ofNat_toNat]
              · by_cases h7 : c = '<'
                · subst h7
                  cases f with
                  | zero => simp [escapeChar] at hf
                  | succ f2 =>
                    rw [show escapeChar '<' = ['\\', 'u', '0', '0', '3', 'c'] from by
                      simp [escapeChar]]
                    simp only [List.cons_append, List.nil_append, List.append_assoc]
                    simp only [parseStrBody]
                    rw [ih f2 rest (by simp [escapeChar] at hf; omega)]
                    rfl
                · by_cases h8 : c = '>'
                  · subst h8
                    cases f with
                    | zero => simp [escapeChar] at hf
                    | succ f2 =>
                      rw [show escapeChar '>' = ['\\', 'u', '0', '0', '3', 'e'] from by
                        simp [escapeChar]]
                      simp only [List.cons_append, List.nil_append, List.append_assoc]
                      simp only [parseStrBody]
                      rw [ih f2 rest (by simp [escapeChar] at hf; omega)]
                      rfl
                  · by_cases h9 : c = '&'
                    · subst h9
                      cases f with
                      | zero => simp [escapeChar] at hf
                      | succ f2 =>
                        rw [show escapeChar '&' = ['\\', 'u', '0', '0', '2', '6'] from by
                          simp [escapeChar]]
                        simp only [List.cons_append, List.nil_append, List.append_assoc]
                        simp only [parseStrBody]
                        rw [ih f2 rest (by simp [escapeChar] at hf; omega)]
                        rfl
                    · by_cases h10 : c.toNat = 0x2028
                      · cases f with
                        | zero => simp [escapeChar, h1, h2, h3, h4, h5, h6, h7, h8, h9, h10] at hf
                        | succ f2 =>
                          rw [show escapeChar c = ['\\', 'u', '2', '0', '2', '8'] by
                            simp [escapeChar, h1, h2, h3, h4, h5, h6, h7, h8, h9, h10]]
                          simp only [List.cons_append, List.nil_append, List.append_assoc]
                          simp only [parseStrBody]
                          rw [ih f2 rest (by
                            simp [escapeChar, h1, h2, h3, h4, h5, h6, h7, h8, h9, h10] at hf
                            omega)]
                          have hc : Char.ofNat 0x2028 = c := by
                            rw [← h10, Char.ofNat_toNat]
                          show some (Char.ofNat 0x2028 :: t, rest) = some (c :: t, rest)
                          rw [hc]
                      · by_cases h11 : c.toNat = 0x2029
                        · cases f with
                          | zero =>
                            simp [escapeChar, h1, h2, h3, h4, h5, h6, h7, h8, h9, h10, h11] at hf
                          | succ f2 =>
                            rw [show escapeChar c = ['\\', 'u', '2', '0', '2', '9'] by
                              simp [escapeChar, h1, h2, h3, h4, h5, h6, h7, h8, h9, h10, h11]]
                            simp only [List.cons_append, List.nil_append, List.append_assoc]
                            simp only [parseStrBody]
                            rw [ih f2 rest (by
                              simp [escapeChar, h1, h2, h3, h4, h5, h6, h7, h8, h9, h10, h11] at hf
                              omega)]
                            have hc : Char.ofNat 0x2029 = c := by
                              rw [← h11, Char.ofNat_toNat]
                            show some (Char.ofNat 0x2029 :: t, rest) = some (c :: t, rest)
                            rw [hc]
                        · cases f with
                          | zero =>
                            simp [escapeChar, h1, h2, h3, h4, h5, h6, h7, h8, h9, h10, h11] at hf
                          | succ f2 =>
                            rw [show escapeChar c = [c] by
                              simp [escapeChar, h1, h2, h3, h4, h5, h6, h7, h8, h9, h10, h11]]
                            simp only [List.cons_append, List.nil_append, List.append_assoc]
                            simp only [parseStrBody]
                            rw [if_neg h1, if_neg h2, if_neg (by omega : ¬ c.toNat < 32)]
                            rw [ih f2 rest (by
                              simp [escapeChar, h1, h2, h3, h4, h5, h6, h7, h8, h9, h10, h11] at hf
                              omega)]

theorem keysBelowAllB_nil : ∀ fs, keysBelowAllB .nil fs = true := by
  intro fs
  induction fs using GoFields.spineInd with
  | h1 => rfl
  | h2 k v tl ih => simp [keysBelowAllB, keysBelowB, ih]

theorem mapInsert_append (acc : GoFields) (k : String) (v : GoValue)
    (h : keysBelowB k acc = true) :
    mapInsert acc k v = fieldsAppend acc (.cons k v .nil) := by
  induction acc using GoFields.spineInd with
  | h1 => rfl
  | h2 k1 v1 tl ih =>
    simp only [keysBelowB, Bool.and_eq_true] at h
    have hlt : strLt k1 k = true := h.1
    rw [mapInsert, if_neg (by simp [strLt_asymm hlt]), if_neg (Ne.symm (strLt_ne hlt)),
      ih h.2]
    rfl

theorem keysBelowB_append (k2 : String) (acc : GoFields) (k : String) (v : GoValue) :
    keysBelowB k2 (fieldsAppend acc (.cons k v .nil)) =
      (keysBelowB k2 acc && strLt k k2) := by
  induction acc using GoFields.spineInd with
  | h1 => simp [fieldsAppend, keysBelowB]
  | h2 k1 v1 tl ih =>
    simp [fieldsAppend, keysBelowB, ih, Bool.and_assoc]

theorem keysAboveB_append (k1 : String) (acc : GoFields) (k : String) (v : GoValue) :
    keysAboveB k1 (fieldsAppend acc (.cons k v .nil)) =
      (keysAboveB k1 acc && strLt k1 k) := by
  induction acc using GoFields.spineInd with
  | h1 => simp [fieldsAppend, keysAboveB]
  | h2 k2 v2 tl ih =>
    simp [fieldsAppend, keysAboveB, ih, Bool.and_assoc]

theorem keysSortedB_snoc (acc : GoFields) (k : String) (v : GoValue)
    (hs : keysSortedB acc = true) (hb : keysBelowB k acc = true) :
    keysSortedB (fieldsAppend acc (.cons k v .nil)) = true := by
  induction acc using GoFields.spineInd with
  | h1 => simp [fieldsAppend, keysSortedB, keysAboveB]
  | h2 k1 v1 tl ih =>
    simp only [keysSortedB, Bool.and_eq_true] at hs
    simp only [keysBelowB, Bool.and_eq_true] at hb
    simp only [fieldsAppend, keysSortedB, keysAboveB_append, Bool.and_eq_true]
    exact ⟨⟨hs.1, hb.1⟩, ih hs.2 hb.2⟩

theorem keysBelowAllB_snoc (acc : GoFields) (k : String) (v : GoValue) (tl : GoFields)
    (hb : keysBelowAllB acc tl = true) (ha : keysAboveB k tl = true) :
    keysBelowAllB (fieldsAppend acc (.cons k v .nil)) tl = true := by
  induction tl using GoFields.spineInd with
  | h1 => rfl
  | h2 k2 v2 tl2 ih =>
    simp only [keysBelowAllB, Bool.and_eq_true] at hb
    simp only [keysAboveB, Bool.and_eq_true] at ha
    simp only [keysBelowAllB, keysBelowB_append, Bool.and_eq_true]
    exact ⟨⟨hb.1, ha.1⟩, ih hb.2 ha.2⟩

theorem fieldsAppend_snoc_assoc (acc : GoFields) (k : String) (v : GoValue) (tl : GoFields) :
    fieldsAppend (fieldsAppend acc (.cons k v .nil)) tl = fieldsAppend acc (.cons k v tl) := by
  induction acc using GoFields.spineInd with
  | h1 => rfl
  | h2 k1 v1 tl1 ih => simp [fieldsAppend, ih]

theorem fieldsAppend_nil_left : ∀ fs, fieldsAppend .nil fs = fs := fun _ => rfl

theorem elemsAppend_snoc_assoc (acc : GoElems) (v : GoValue) (tl : GoElems) :
    elemsAppend (GoElems.snoc acc v) tl = elemsAppend acc (.cons v tl) := by
  induction acc using GoElems.spineInd with
  | h1 => rfl
  | h2 w tl1 ih => simp [GoElems.snoc, elemsAppend, ih]

theorem elems_snoc_eq_append (acc : GoElems) (v : GoValue) :
    GoElems.snoc acc v = elemsAppend acc (.cons v .nil) := by
  induction acc using GoElems.spineInd with
  | h1 => rfl
  | h2 w tl ih => simp [GoElems.snoc, elemsAppend, ih]

theorem parseStr_escBody (l rest : List Char) :
    parseStr (escBody l ++ '\"' :: rest) = some (l, rest) :=
  parseStrBody_escBody l _ rest
    (by simp only [List.length_append, List.length_cons]; omega)

theorem serValue_head (v : GoValue) (hp : pureValB v = true) :
    ∃ c t, serValue v = c :: t ∧ isWsB c = false ∧ c ≠ ']' ∧ c ≠ '\x7d' ∧ c ≠ ',' := by
  cases v with
  | null => exact ⟨'n', _, rfl, by decide, by decide, by decide, by decide⟩
  | boolean b =>
    cases b
    · exact ⟨'f', _, rfl, by decide, by decide, by decide, by decide⟩
    · exact ⟨'t', _, rfl, by decide, by decide, by decide, by decide⟩
  | str s => exact ⟨'\"', _, rfl, by decide, by decide, by decide, by decide⟩
  | obj fs => exact ⟨'\x7b', _, rfl, by decide, by decide, by decide, by decide⟩
  | arr vs => exact ⟨'[', _, rfl, by decide, by decide, by decide, by decide⟩
  | number lit => simp [pureValB] at hp
  | float64 t => simp [pureValB] at hp
  | float32 t => simp [pureValB] at hp
  | int m => simp [pureValB] at hp
  | int64 m => simp [pureValB] at hp
  | int32 m => simp [pureValB] at hp

theorem serMembers_cons_eq (k : String) (v : GoValue) (tl : GoFields) :
    ∃ T, serMembers (.cons k v tl) = '\"' :: T := by
  cases tl with
  | nil => exact ⟨_, rfl⟩
  | cons k2 v2 tl2 => exact ⟨_, rfl⟩

theorem serElems_cons_head (v : GoValue) (hp : pureValB v = true) (tl : GoElems) :
    ∃ c t, serElems (.cons v tl) = c :: t ∧ isWsB c = false ∧ c ≠ ']' := by
  obtain ⟨c, t0, hs, hw, hnb, _, _⟩ := serValue_head v hp
  cases tl with
  | nil => exact ⟨c, t0, by simp [serElems, hs], hw, hnb⟩
  | cons w tl2 =>
    exact ⟨c, t0 ++ ',' :: serElems (.cons w tl2), by simp [serElems, hs], hw, hnb⟩

/-- Parsing is a left inverse of serialisation on decoder-producible
(number-free) values: the three mutually recursive statements, by strong
induction on size. -/
theorem parse_ser_master : ∀ n : Nat,
    (∀ v : GoValue, sizeOf v ≤ n → pureValB v = true →
      ∀ (f : Nat) (rest : List Char), (serValue v).length < f →
        parseVal false f (serValue v ++ rest) = some (v, rest)) ∧
    (∀ fs : GoFields, sizeOf fs ≤ n → fs ≠ .nil → pureFieldsB fs = true →
      keysSortedB fs = true →
      ∀ acc : GoFields, keysSortedB acc = true → keysBelowAllB acc fs = true →
      ∀ (f : Nat) (rest : List Char), (serMembers fs).length + 1 < f →
        parseMembers false f (serMembers fs ++ '\x7d' :: rest) acc =
          some (.obj (fieldsAppend acc fs), rest)) ∧
    (∀ vs : GoElems, sizeOf vs ≤ n → vs ≠ .nil → pureElemsB vs = true →
      ∀ (acc : GoElems) (f : Nat) (rest : List Char), (serElems vs).length + 1 < f →
        parseElems false f (serElems vs ++ ']' :: rest) acc =
          some (.arr (elemsAppend acc vs), rest)) := by
  intro n
  induction n with
  | zero =>
    refine ⟨?_, ?_, ?_⟩
    · intro v hsz
      exfalso
      cases v <;> simp at hsz
    · intro fs hsz
      exfalso
      cases fs <;> simp at hsz
    · intro vs hsz
      exfalso
      cases vs <;> simp at hsz
  | succ n ih =>
    obtain ⟨ihV, ihF, ihE⟩ := ih
    refine ⟨?_, ?_, ?_⟩
    · -- values
      intro v hsz hp f rest hf
      cases f with
      | zero => exact absurd hf (by omega)
      | succ f2 =>
        cases v with
        | null => simp [serValue, parseVal, skipWs, isWsB]
        | boolean b => cases b <;> simp [serValue, parseVal, skipWs, isWsB]
        | str s =>
          simp only [serValue, serStr, List.cons_append, List.append_assoc,
            List.nil_append]
          have hsk := skipWs_cons (escBody s.data ++ '\"' :: rest)
            (by decide : isWsB '\"' = false)
          simp only [parseVal, hsk]
          simp only [Char.reduceEq, reduceIte]
          rw [parseStr_escBody s.data rest]
        | number lit => simp [pureValB] at hp
        | float64 t => simp [pureValB] at hp
        | float32 t => simp [pureValB] at hp
        | int m => simp [pureValB] at hp
        | int64 m => simp [pureValB] at hp
        | int32 m => simp [pureValB] at hp
        | obj fs =>
          simp only [pureValB, Bool.and_eq_true] at hp
          cases fs with
          | nil => simp [serValue, serMembers, parseVal, skipWs, isWsB]
          | cons k v tl =>
            have hszf : sizeOf (GoFields.cons k v tl) ≤ n := by
              simp only [GoValue.obj.sizeOf_spec] at hsz
              omega
            have hfuel : (serMembers (GoFields.cons k v tl)).length + 1 < f2 := by
              simp only [serValue, List.length_cons, List.length_append,
                List.length_nil] at hf
              omega
            have hm := ihF (GoFields.cons k v tl) hszf (by intro h; cases h)
              hp.2 hp.1 GoFields.nil rfl (keysBelowAllB_nil _) f2 rest hfuel
            obtain ⟨T, hT⟩ := serMembers_cons_eq k v tl
            rw [hT] at hm
            simp only [List.cons_append] at hm
            simp only [serValue, List.cons_append, List.append_assoc,
              List.nil_append]
            rw [hT]
            simp only [List.cons_append]
            have hsk1 := skipWs_cons ('\"' :: (T ++ '\x7d' :: rest))
              (by decide : isWsB '\x7b' = false)
            simp only [parseVal, hsk1]
            simp only [Char.reduceEq, reduceIte]
            have hsk2 := skipWs_cons (T ++ '\x7d' :: rest)
              (by decide : isWsB '\"' = false)
            simp only [hsk2]
            simp only [Char.reduceEq, reduceIte]
            rw [hm]
            rfl
        | arr vs =>
          simp only [pureValB] at hp
          cases vs with
          | nil => simp [serValue, serElems, parseVal, skipWs, isWsB]
          | cons v tl =>
            have hp2 := hp
            simp only [pureElemsB, Bool.and_eq_true] at hp2
            have hszE : sizeOf (GoElems.cons v tl) ≤ n := by
              simp only [GoValue.arr.sizeOf_spec] at hsz
              omega
            have hfuel : (serElems (GoElems.cons v tl)).length + 1 < f2 := by
              simp only [serValue, List.length_cons, List.length_append,
                List.length_nil] at hf
              omega
            have hm := ihE (GoElems.cons v tl) hszE (by intro h; cases h)
              hp GoElems.nil f2 rest hfuel
            obtain ⟨c, t, hT, hw, hnb⟩ := serElems_cons_head v hp2.1 tl
            rw [hT] at hm
            simp only [List.cons_append] at hm
            simp only [serValue, List.cons_append, List.append_assoc,
              List.nil_append]
            rw [hT]
            simp only [List.cons_append]
            have hsk1 := skipWs_cons (c :: (t ++ ']' :: rest))
              (by decide : isWsB '[' = false)
            simp only [parseVal, hsk1]
            simp only [Char.reduceEq, reduceIte]
            have hsk2 := skipWs_cons (t ++ ']' :: rest) hw
            simp only [hsk2]
            rw [if_neg hnb]
            rw [hm]
            rfl
    · -- object members
      intro fs hsz hne hpure hsorted acc hsacc hbelow f rest hf
      cases fs with
      | nil => exact absurd rfl hne
      | cons k v tl =>
        cases f with
        | zero => exact absurd hf (by omega)
        | succ f2 =>
          simp only [pureFieldsB, Bool.and_eq_true] at hpure
          simp only [keysSortedB, Bool.and_eq_true] at hsorted
          simp only [keysBelowAllB, Bool.and_eq_true] at hbelow
          have hszv : sizeOf v ≤ n := by
            simp only [GoFields.cons.sizeOf_spec] at hsz
            omega
          have hk : String.mk k.data = k := rfl
          have hins : mapInsert acc k v = fieldsAppend acc (.cons k v .nil) :=
            mapInsert_append acc k v hbelow.1
          cases tl with
          | nil =>
            simp only [serMembers, serStr, List.length_append, List.length_cons,
              List.length_nil] at hf
            have hfv : (serValue v).length < f2 := by omega
            have hv := ihV v hszv hpure.1 f2 ('\x7d' :: rest) hfv
            simp only [serMembers, serStr, List.cons_append, List.append_assoc,
              List.nil_append]
            simp [parseMembers, skipWs, isWsB, parseStr_escBody, hv, hk, hins]
          | cons k2 v2 tl2 =>
            simp only [serMembers, serStr, List.length_append, List.length_cons,
              List.length_nil] at hf
            have hfv : (serValue v).length < f2 := by omega
            have hf2 : (serMembers (GoFields.cons k2 v2 tl2)).length + 1 < f2 := by
              omega
            have hsz2 : sizeOf (GoFields.cons k2 v2 tl2) ≤ n := by
              simp only [GoFields.cons.sizeOf_spec] at hsz ⊢
              omega
            have hv := ihV v hszv hpure.1 f2
              (',' :: (serMembers (.cons k2 v2 tl2) ++ '\x7d' :: rest)) hfv
            have hacc2sorted := keysSortedB_snoc acc k v hsacc hbelow.1
            have hacc2below := keysBelowAllB_snoc acc k v (.cons k2 v2 tl2)
              hbelow.2 hsorted.1
            have hm := ihF (GoFields.cons k2 v2 tl2) hsz2 (by intro h; cases h)
              hpure.2 hsorted.2 (fieldsAppend acc (.cons k v .nil))
              hacc2sorted hacc2below f2 rest hf2
            simp only [serMembers, serStr, List.cons_append, List.append_assoc,
              List.nil_append]
            simp [parseMembers, skipWs, isWsB, parseStr_escBody, hv, hk, hins, hm,
              fieldsAppend_snoc_assoc]
    · -- array elements
      intro vs hsz hne hpure acc f rest hf
      cases vs with
      | nil => exact absurd rfl hne
      | cons v tl =>
        cases f with
        | zero => exact absurd hf (by omega)
        | succ f2 =>
          simp only [pureElemsB, Bool.and_eq_true] at hpure
          have hszv : sizeOf v ≤ n := by
            simp only [GoElems.cons.sizeOf_spec] at hsz
            omega
          cases tl with
          | nil =>
            simp only [serElems] at hf
            have hfv : (serValue v).length < f2 := by omega
            have hv := ihV v hszv hpure.1 f2 (']' :: rest) hfv
            simp only [serElems, parseElems]
            rw [hv]
            simp [skipWs, isWsB, elems_snoc_eq_append]
          | cons w tl2 =>
            simp only [serElems, List.length_append, List.length_cons] at hf
            have hfv : (serValue v).length < f2 := by omega
            have hf2 : (serElems (GoElems.cons w tl2)).length + 1 < f2 := by omega
            have hsz2 : sizeOf (GoElems.cons w tl2) ≤ n := by
              simp only [GoElems.cons.sizeOf_spec] at hsz ⊢
              omega
            have hv := ihV v hszv hpure.1 f2
              (',' :: (serElems (.cons w tl2) ++ ']' :: rest)) hfv
            have hm := ihE (GoElems.cons w tl2) hsz2 (by intro h; cases h)
              hpure.2 (acc.snoc v) f2 rest hf2
            simp only [serElems, List.cons_append, List.append_assoc]
            simp only [parseElems]
            rw [hv]
            simp [skipWs, isWsB, hm, elemsAppend_snoc_assoc]

theorem fieldsInsert_front (k : String) (v : GoValue) (tl : GoFields)
    (h : keysAboveB k tl = true) : fieldsInsert k v tl = .cons k v tl := by
  cases tl with
  | nil => rfl
  | cons k1 v1 tl1 =>
    simp only [keysAboveB, Bool.and_eq_true] at h
    simp [fieldsInsert, strLe, strLt_asymm h.1]

/-- `canonOrder` (the key-sorting pass of `json.Marshal`) is the identity on
decoder-produced values: Go maps decode into our canonical key-sorted
representation already. -/
theorem canon_pure_master : ∀ n : Nat,
    (∀ v : GoValue, sizeOf v ≤ n → pureValB v = true → canonOrder v = v) ∧
    (∀ fs : GoFields, sizeOf fs ≤ n → keysSortedB fs = true → pureFieldsB fs = true →
      canonFields fs = fs) ∧
    (∀ vs : GoElems, sizeOf vs ≤ n → pureElemsB vs = true → canonElems vs = vs) := by
  intro n
  induction n with
  | zero =>
    refine ⟨?_, ?_, ?_⟩
    · intro v hsz
      exfalso
      cases v <;> simp at hsz
    · intro fs hsz
      exfalso
      cases fs <;> simp at hsz
    · intro vs hsz
      exfalso
      cases vs <;> simp at hsz
  | succ n ih =>
    obtain ⟨ihV, ihF, ihE⟩ := ih
    refine ⟨?_, ?_, ?_⟩
    · intro v hsz hp
      cases v with
      | null => rfl
      | boolean b => rfl
      | str s => rfl
      | number lit => simp [pureValB] at hp
      | float64 t => simp [pureValB] at hp
      | float32 t => simp [pureValB] at hp
      | int m => simp [pureValB] at hp
      | int64 m => simp [pureValB] at hp
      | int32 m => simp [pureValB] at hp
      | obj fs =>
        simp only [pureValB, Bool.and_eq_true] at hp
        have hszf : sizeOf fs ≤ n := by
          simp only [GoValue.obj.sizeOf_spec] at hsz
          omega
        simp only [canonOrder]
        rw [ihF fs hszf hp.1 hp.2]
      | arr vs =>
        simp only [pureValB] at hp
        have hszE : sizeOf vs ≤ n := by
          simp only [GoValue.arr.sizeOf_spec] at hsz
          omega
        simp only [canonOrder]
        rw [ihE vs hszE hp]
    · intro fs hsz hsort hp
      cases fs with
      | nil => rfl
      | cons k v tl =>
        simp only [keysSortedB, Bool.and_eq_true] at hsort
        simp only [pureFieldsB, Bool.and_eq_true] at hp
        have hszv : sizeOf v ≤ n := by
          simp only [GoFields.cons.sizeOf_spec] at hsz
          omega
        have hsztl : sizeOf tl ≤ n := by
          simp only [GoFields.cons.sizeOf_spec] at hsz
          omega
        simp only [canonFields]
        rw [ihV v hszv hp.1, ihF tl hsztl hsort.2 hp.2,
          fieldsInsert_front k v tl hsort.1]
    · intro vs hsz hp
      cases vs with
      | nil => rfl
      | cons v tl =>
        simp only [pureElemsB, Bool.and_eq_true] at hp
        have hszv : sizeOf v ≤ n := by
          simp only [GoElems.cons.sizeOf_spec] at hsz
          omega
        have hsztl : sizeOf tl ≤ n := by
          simp only [GoElems.cons.sizeOf_spec] at hsz
          omega
        simp only [canonElems]
        rw [ihV v hszv hp.1, ihE tl hsztl hp.2]

/-- `json.Marshal` succeeds on every decoder-produced (number-free) value. -/
theorem marshal_pure_master : ∀ n : Nat,
    (∀ v : GoValue, sizeOf v ≤ n → pureValB v = true → marshalOkB v = true) ∧
    (∀ fs : GoFields, sizeOf fs ≤ n → pureFieldsB fs = true →
      marshalFieldsOkB fs = true) ∧
    (∀ vs : GoElems, sizeOf vs ≤ n → pureElemsB vs = true →
      marshalElemsOkB vs = true) := by
  intro n
  induction n with
  | zero =>
    refine ⟨?_, ?_, ?_⟩
    · intro v hsz
      exfalso
      cases v <;> simp at hsz
    · intro fs hsz
      exfalso
      cases fs <;> simp at hsz
    · intro vs hsz
      exfalso
      cases vs <;> simp at hsz
  | succ n ih =>
    obtain ⟨ihV, ihF, ihE⟩ := ih
    refine ⟨?_, ?_, ?_⟩
    · intro v hsz hp
      cases v with
      | null => rfl
      | boolean b => rfl
      | str s => rfl
      | number lit => simp [pureValB] at hp
      | float64 t => rfl
      | float32 t => rfl
      | int m => rfl
      | int64 m => rfl
      | int32 m => rfl
      | obj fs =>
        simp only [pureValB, Bool.and_eq_true] at hp
        have hszf : sizeOf fs ≤ n := by
          simp only [GoValue.obj.sizeOf_spec] at hsz
          omega
        simp only [marshalOkB]
        exact ihF fs hszf hp.2
      | arr vs =>
        simp only [pureValB] at hp
        have hszE : sizeOf vs ≤ n := by
          simp only [GoValue.arr.sizeOf_spec] at hsz
          omega
        simp only [marshalOkB]
        exact ihE vs hszE hp
    · intro fs hsz hp
      cases fs with
      | nil => rfl
      | cons k v tl =>
        simp only [pureFieldsB, Bool.and_eq_true] at hp
        have hszv : sizeOf v ≤ n := by
          simp only [GoFields.cons.sizeOf_spec] at hsz
          omega
        have hsztl : sizeOf tl ≤ n := by
          simp only [GoFields.cons.sizeOf_spec] at hsz
          omega
        simp only [marshalFieldsOkB, Bool.and_eq_true]
        exact ⟨ihV v hszv hp.1, ihF tl hsztl hp.2⟩
    · intro vs hsz hp
      cases vs with
      | nil => rfl
      | cons v tl =>
        simp only [pureElemsB, Bool.and_eq_true] at hp
        have hszv : sizeOf v ≤ n := by
          simp only [GoElems.cons.sizeOf_spec] at hsz
          omega
        have hsztl : sizeOf tl ≤ n := by
          simp only [GoElems.cons.sizeOf_spec] at hsz
          omega
        simp only [marshalElemsOkB, Bool.and_eq_true]
        exact ⟨ihV v hszv hp.1, ihE tl hsztl hp.2⟩

/-- C6 counterexample: the decoder (with `UseNumber`) represents the numeric
literal `1` as a `json.Number`, but `fromJSON` (plain `json.Unmarshal`)
decodes `toJSON`'s output back as a `float64` — a value of a different
dynamic type, so `fromJSON(toJSON(x)) == x` fails on decoded numbers. -/
theorem c6_counterexample :
    decodeInputDoc "\x7b\"a\":1\x7d" = .ok (.cons "a" (.number "1") .nil) ∧
    fromJSONFn (toJSONFn (.number "1")) = .float64 "1" ∧
    GoValue.float64 "1" ≠ GoValue.number "1" :=
  ⟨rfl, rfl, fun h => GoValue.noConfusion h⟩

/-- C6 (amended): the template functions satisfy the round-trip law
`fromJSON(toJSON(x)) = x` for every decoder-producible value `x` that
contains no numeric literal — null, booleans, strings, and arbitrarily
nested (key-sorted) mappings and sequences of these; decoded numbers are
excluded because `toJSON` re-emits the literal and `fromJSON` reads it back
as `float64`, not `json.Number`. -/
theorem c6_roundtrip_decoder_values (v : GoValue) (hp : pureValB v = true) :
    fromJSONFn (toJSONFn v) = v := by
  have hmar : marshalOkB v = true := (marshal_pure_master (sizeOf v)).1 v le_rfl hp
  have hcan : canonOrder v = v := (canon_pure_master (sizeOf v)).1 v le_rfl hp
  have hparse : parseVal false ((serValue v).length + 1) (serValue v) =
      some (v, []) := by
    have h := (parse_ser_master (sizeOf v)).1 v le_rfl hp
      ((serValue v).length + 1) [] (by omega)
    rwa [List.append_nil] at h
  simp only [toJSONFn, hmar, reduceIte]
  rw [hcan]
  simp only [fromJSONFn, parseTop]
  rw [hparse]
  rfl

theorem c6_roundtrip_decoder_values_witness :
    pureValB (GoValue.obj (.cons "b"
      (.arr (.cons (.str "<hi>") (.cons (.boolean true) .nil)))
      (.cons "k" .null .nil))) = true ∧
    fromJSONFn (toJSONFn (GoValue.obj (.cons "b"
      (.arr (.cons (.str "<hi>") (.cons (.boolean true) .nil)))
      (.cons "k" .null .nil)))) =
      GoValue.obj (.cons "b"
        (.arr (.cons (.str "<hi>") (.cons (.boolean true) .nil)))
        (.cons "k" .null .nil)) :=
  ⟨rfl, c6_roundtrip_decoder_values _ rfl⟩

end MessageTransformer